import Mathlib

/-!
# Verification of `vet_new_skills.py`

A shallow embedding of the skill-vetting tool: the static content scanner
(`_scan_text` over the `RULES` table), the bundle classifier
(`scan_skill_dir`), the directory hasher (`_hash_dir`), the state store
(`_load_state`, `_state_get_hash`, `_state_set_skill`), the change
detectors (`cmd_find`, `cmd_weekly_sync`) and the weekly-sync workflow
orchestrator with its transition primitives (`_copy_skill_dir`,
`_backup_and_remove`, `_write_placeholder_skill`).

Python regexes are embedded via a small backtracking matcher (`Rx`) whose
constructors cover exactly the constructs used by the rule table:
case-insensitive literals, single-character classes, bounded greedy
repetition of a character class, sequencing, alternation, the word
boundary `\b` and the MULTILINE end-of-line anchor `$`.  Character
classes are the ASCII readings of Python's `\s`, `\w`, `[^\n]` etc.;
all pattern literals are ASCII so `re.IGNORECASE` is modelled by
ASCII lowercasing.
-/

set_option maxRecDepth 8000

namespace Vet

/-- ASCII lowercasing, as applied by `re.IGNORECASE` to the ASCII
pattern literals of the rule table. -/
def lowerC (c : Char) : Char :=
  if 'A' ≤ c ∧ c ≤ 'Z' then Char.ofNat (c.toNat + 32) else c

/-- Python `\s` (ASCII reading): space, tab, newline, CR, FF, VT. -/
def isSpaceC (c : Char) : Bool :=
  c = ' ' || c = '\t' || c = '\n' || c = '\x0d' || c = '\x0b' || c = '\x0c'

/-- Python `\w` (ASCII reading): letters, digits, underscore. -/
def isWordC (c : Char) : Bool :=
  ('a' ≤ c && c ≤ 'z') || ('A' ≤ c && c ≤ 'Z') || ('0' ≤ c && c ≤ '9') || c = '_'

/-- `[^\n]`. -/
def notNl (c : Char) : Bool := c ≠ '\n'

/-- `[A-Z]` under `re.IGNORECASE`. -/
def isAsciiLetter (c : Char) : Bool :=
  ('a' ≤ c && c ≤ 'z') || ('A' ≤ c && c ≤ 'Z')

/-- `[A-Za-z0-9+/=]`, the base64 alphabet class of the rule table. -/
def isB64C (c : Char) : Bool :=
  ('a' ≤ c && c ≤ 'z') || ('A' ≤ c && c ≤ 'Z') || ('0' ≤ c && c ≤ '9') ||
  c = '+' || c = '/' || c = '='

/-- Regex abstract syntax: exactly the constructs used in `RULES`. -/
inductive Rx where
  /-- matches the empty string -/
  | eps : Rx
  /-- case-insensitive literal -/
  | lit : List Char → Rx
  /-- one character of a class -/
  | cls : (Char → Bool) → Rx
  /-- greedy `{lo,hi}` repetition of a character class (`hi = none` unbounded) -/
  | rep : (Char → Bool) → Nat → Option Nat → Rx
  | seq : Rx → Rx → Rx
  | alt : Rx → Rx → Rx
  /-- `\b` word boundary -/
  | wb : Rx
  /-- `$` with `re.MULTILINE`: end of text or just before a newline -/
  | eol : Rx

namespace Rx

/-- Consume a case-insensitive literal; returns the new previous-character
and the remaining suffix. -/
def dropLit : List Char → Option Char → List Char → Option (Option Char × List Char)
  | [], prev, s => some (prev, s)
  | _ :: _, _, [] => none
  | c :: cs, _, x :: xs =>
      if lowerC c = lowerC x then dropLit cs (some x) xs else none

/-- Length of the maximal prefix satisfying `f`. -/
def runLen (f : Char → Bool) : List Char → Nat
  | [] => 0
  | c :: cs => if f c then runLen f cs + 1 else 0

/-- Drop `n` characters, tracking the last one dropped as the new
previous-character. -/
def consumeN : Nat → Option Char → List Char → Option Char × List Char
  | 0, prev, s => (prev, s)
  | _ + 1, prev, [] => (prev, [])
  | n + 1, _, c :: cs => consumeN n (some c) cs

/-- Is there a word boundary between `prev` and the head of `s`? -/
def boundary (prev : Option Char) (s : List Char) : Bool :=
  let l := match prev with | none => false | some c => isWordC c
  let r := match s with | [] => false | c :: _ => isWordC c
  l ≠ r

/-- All suffix states reachable by matching `r`, in Python's backtracking
preference order (first = preferred): alternation prefers the left branch,
repetition is greedy. -/
def tryMatch : Rx → Option Char → List Char → List (Option Char × List Char)
  | .eps, prev, s => [(prev, s)]
  | .lit cs, prev, s =>
      match dropLit cs prev s with
      | some st => [st]
      | none => []
  | .cls f, _, s =>
      match s with
      | [] => []
      | c :: cs => if f c then [(some c, cs)] else []
  | .rep f lo hi, prev, s =>
      let m := runLen f s
      let top := match hi with | none => m | some h => min m h
      if lo ≤ top then
        ((List.range (top + 1 - lo)).map fun k => consumeN (top - k) prev s)
      else []
  | .seq a b, prev, s =>
      (tryMatch a prev s).flatMap fun st => tryMatch b st.1 st.2
  | .alt a b, prev, s => tryMatch a prev s ++ tryMatch b prev s
  | .wb, prev, s => if boundary prev s then [(prev, s)] else []
  | .eol, prev, s =>
      match s with
      | [] => [(prev, s)]
      | c :: _ => if c = '\n' then [(prev, s)] else []

/-- `re.search`: the start index and length of the leftmost match (with the
pattern's preferred extent), or `none`. -/
def searchAux (r : Rx) (prev : Option Char) (s : List Char) (pos : Nat) :
    Option (Nat × Nat) :=
  match tryMatch r prev s with
  | st :: _ => some (pos, s.length - st.2.length)
  | [] =>
      match s with
      | [] => none
      | c :: cs => searchAux r (some c) cs (pos + 1)

/-- First match of `r` in `s` as `(start, length)`. -/
def search (r : Rx) (s : List Char) : Option (Nat × Nat) :=
  searchAux r none s 0

/-- Chain a list of regexes in sequence. -/
def seqs : List Rx → Rx
  | [] => .eps
  | [r] => r
  | r :: rs => .seq r (seqs rs)

/-- Chain a list of regexes as alternation (left preferred). -/
def alts : List Rx → Rx
  | [] => .eps
  | [r] => r
  | r :: rs => .alt r (alts rs)

/-- Literal from a string. -/
def l (s : String) : Rx := .lit s.toList

end Rx

open Rx in
/-- A static detection rule (`Rule` dataclass). -/
structure Rule where
  ruleId : String
  severity : String
  category : String
  description : String
  pattern : Rx

open Rx in
/-- The `RULES` table, pattern by pattern from the source. -/
def RULES : List Rule := [
  ⟨"INJECT_IGNORE_PREVIOUS", "danger", "prompt_injection",
    "Attempts to override higher-priority instructions",
    seqs [.wb, alts [l "ignore", l "disregard", l "forget"], .wb,
      .rep notNl 0 (some 60), .wb, alts [l "previous", l "prior", l "earlier"],
      .wb, .rep notNl 0 (some 40), .wb,
      alts [l "instructions", l "rules", l "system", l "developer"], .wb]⟩,
  ⟨"INJECT_SYSTEM_OVERRIDE", "danger", "prompt_injection",
    "System/developer override language",
    alts [
      seqs [.wb, l "system", .rep isSpaceC 1 none, l "override", .wb],
      seqs [.wb, l "developer", .rep isSpaceC 1 none, l "override", .wb],
      seqs [.wb, l "override", .rep isSpaceC 1 none,
        .alt (seqs [l "all", .rep isSpaceC 1 none]) .eps,
        alts [l "policies", l "safety", l "rules"], .wb]]⟩,
  ⟨"INJECT_REVEAL_SYSTEM_PROMPT", "warning", "prompt_injection",
    "Requests to reveal hidden/system prompts",
    seqs [.wb, alts [l "reveal", l "show", l "print", l "leak"], .wb,
      .rep notNl 0 (some 40), .wb,
      alts [seqs [l "system", .rep isSpaceC 1 none, l "prompt"],
        seqs [l "developer", .rep isSpaceC 1 none, l "message"],
        seqs [l "hidden", .rep isSpaceC 1 none, l "instructions"]], .wb]⟩,
  ⟨"INJECT_JAILBREAK_KEYWORDS", "warning", "prompt_injection",
    "Common jailbreak keywords",
    seqs [.wb,
      alts [l "jailbreak",
        seqs [l "do", .rep isSpaceC 1 none, l "anything", .rep isSpaceC 1 none, l "now"],
        .seq (l "DAN") .wb, l "unfiltered", l "uncensored",
        seqs [l "no", .rep isSpaceC 1 none, l "restrictions"]], .wb]⟩,
  ⟨"CURL_PIPE_SHELL", "danger", "download_exec", "curl piped to a shell",
    seqs [.wb, l "curl", .wb, .rep notNl 0 (some 200), l "|",
      .rep isSpaceC 0 none, alts [l "bash", l "sh", l "zsh"], .wb]⟩,
  ⟨"WGET_PIPE_SHELL", "danger", "download_exec", "wget piped to a shell",
    seqs [.wb, l "wget", .wb, .rep notNl 0 (some 200), l "|",
      .rep isSpaceC 0 none, alts [l "bash", l "sh", l "zsh"], .wb]⟩,
  ⟨"POWERSHELL_IEX_DOWNLOAD", "danger", "download_exec", "PowerShell IEX with download",
    seqs [.wb, alts [l "powershell", l "pwsh"], .wb, .rep notNl 0 (some 250), .wb,
      alts [l "iex", l "invoke-expression"], .wb, .rep notNl 0 (some 250), .wb,
      alts [l "iwr", l "wget", l "invoke-webrequest", l "downloadstring"], .wb]⟩,
  ⟨"RM_RF_ROOT", "danger", "destructive", "Destructive rm -rf on root",
    seqs [.wb, l "rm", .rep isSpaceC 1 none, l "-rf", .rep isSpaceC 1 none,
      l "/", .alt (.cls isSpaceC) .eol]⟩,
  ⟨"DISK_FORMAT", "danger", "destructive", "Disk format / filesystem creation",
    alts [seqs [.wb, l "format", .rep isSpaceC 1 none, .cls isAsciiLetter, l ":"],
      seqs [.wb, l "mkfs.", .rep isWordC 1 none],
      seqs [.wb, l "mkfs", .wb]]⟩,
  ⟨"DD_WIPE", "danger", "destructive", "Disk/device overwrite",
    alts [seqs [.wb, l "dd", .rep isSpaceC 1 none, l "if=/dev/",
        alts [l "zero", l "random"], .wb],
      seqs [.wb, l "shred", .wb]]⟩,
  ⟨"EXEC_CALL", "warning", "code_exec", "exec() usage",
    seqs [.wb, l "exec", .rep isSpaceC 0 none, l "("]⟩,
  ⟨"EVAL_CALL", "warning", "code_exec", "eval() usage",
    seqs [.wb, l "eval", .rep isSpaceC 0 none, l "("]⟩,
  ⟨"OS_SYSTEM", "warning", "code_exec", "os.system() usage",
    seqs [.wb, l "os.system", .rep isSpaceC 0 none, l "("]⟩,
  ⟨"SUBPROCESS", "warning", "code_exec", "subprocess execution",
    seqs [.wb, l "subprocess.",
      alts [l "Popen", l "call", l "run", l "check_output", l "check_call"],
      .rep isSpaceC 0 none, l "("]⟩,
  ⟨"BASE64_DECODE", "warning", "obfuscation", "Base64 decode primitive",
    alts [seqs [.wb, l "base64.", alts [l "b64decode", l "decodebytes"], .wb],
      seqs [.wb, l "FromBase64String", .wb],
      seqs [.wb, l "atob", .rep isSpaceC 0 none, l "("],
      seqs [.wb, l "base64", .rep isSpaceC 1 none, alts [l "-d", l "--decode"], .wb],
      seqs [.wb, l "certutil", .rep isSpaceC 1 none, l "-decode", .wb]]⟩,
  ⟨"POWERSHELL_ENCODED", "warning", "obfuscation", "PowerShell encoded command",
    seqs [.wb, l "-enc", .alt (l "odedcommand") .eps,
      .rep isSpaceC 1 none, .rep isB64C 20 none]⟩]

/-- `ZERO_WIDTH_RE`'s character class. -/
def isZeroWidth (c : Char) : Bool :=
  (0x200B ≤ c.toNat && c.toNat ≤ 0x200F) ||
  (0x202A ≤ c.toNat && c.toNat ≤ 0x202E) ||
  (0x2060 ≤ c.toNat && c.toNat ≤ 0x206F) ||
  c.toNat = 0xFEFF

/-- One finding dict of `_scan_text`. -/
structure Finding where
  ruleId : String
  severity : String
  category : String
  description : String
  matchTxt : String
  line : Option Nat
  col : Option Nat
deriving Repr, DecidableEq

/-- `content.count("\n", 0, n)`. -/
def countNl (s : List Char) (n : Nat) : Nat :=
  ((s.take n).filter fun c => c = '\n').length

/-- `content.rfind("\n", 0, n)`: index of the last newline strictly
before `n`, if any. -/
def lastNlBefore (s : List Char) (n : Nat) : Option Nat :=
  ((List.range n).filter fun i => s.getD i ' ' = '\n').max?

/-- `m.group(0).replace("\n", "\\n")`. -/
def escNl : List Char → List Char
  | [] => []
  | c :: cs => if c = '\n' then '\\' :: 'n' :: escNl cs else c :: escNl cs

/-- The `match_txt` field: escape newlines, then truncate past 160. -/
def matchTxtOf (s : List Char) (start len : Nat) : String :=
  let raw := escNl ((s.drop start).take len)
  if raw.length > 160 then (raw.take 160 ++ "...".toList).asString else raw.asString

/-- The finding dict built for one matched rule. -/
def mkRuleFinding (rule : Rule) (content : List Char) (start len : Nat) : Finding :=
  let line := countNl content start + 1
  let col := match lastNlBefore content start with
    | some j => start - (j + 1) + 1
    | none => start + 1
  ⟨rule.ruleId, rule.severity, rule.category, rule.description,
    matchTxtOf content start len, some line, some col⟩

/-- The per-rule loop of `_scan_text`: first match only, with line/col. -/
def ruleFindings (content : List Char) : List Finding :=
  RULES.filterMap fun rule =>
    match Rx.search rule.pattern content with
    | none => none
    | some (start, len) => some (mkRuleFinding rule content start len)

/-- All rule ids a finding list can carry, in emission order: the pattern
rules in table order, then the two synthetic obfuscation findings. -/
def canonicalRuleIds : List String :=
  RULES.map Rule.ruleId ++ ["OBFUSCATION_ZERO_WIDTH", "OBFUSCATION_BASE64_BLOB"]

/-- Maximal runs of `f`-characters as `(start, length)` pairs, in order;
`finditer` of a greedy class repetition visits exactly these. -/
def maxRunsAux (f : Char → Bool) : List Char → Nat → Option (Nat × Nat) → List (Nat × Nat)
  | [], _, cur => match cur with | some r => [r] | none => []
  | c :: cs, pos, cur =>
      if f c then
        match cur with
        | some (st, n) => maxRunsAux f cs (pos + 1) (some (st, n + 1))
        | none => maxRunsAux f cs (pos + 1) (some (pos, 1))
      else
        match cur with
        | some r => r :: maxRunsAux f cs (pos + 1) none
        | none => maxRunsAux f cs (pos + 1) none

def maxRuns (f : Char → Bool) (s : List Char) : List (Nat × Nat) :=
  maxRunsAux f s 0 none

/-- The `BASE64_RUN_RE` loop: the first run of ≥ 200 base64 characters whose
length is a multiple of 4 and that contains `=`, `+` or `/`. -/
def firstB64Blob (content : List Char) : Option (Nat × Nat) :=
  ((maxRuns isB64C content).filter fun r =>
    200 ≤ r.2 && r.2 % 4 = 0 &&
      ((content.drop r.1).take r.2).any fun c => c = '=' || c = '+' || c = '/').head?

/-- The findings list before deduplication: pattern rules in table order,
then the zero-width finding, then the base64-blob finding. -/
def rawFindings (content : List Char) : List Finding :=
  let zw := (content.filter isZeroWidth).length
  let zwF : List Finding :=
    if zw ≠ 0 then
      [⟨"OBFUSCATION_ZERO_WIDTH", "warning", "obfuscation",
        "Contains zero-width / bidi control characters",
        "count=" ++ toString zw, none, none⟩]
    else []
  let b64F : List Finding :=
    match firstB64Blob content with
    | some (st, n) =>
        [⟨"OBFUSCATION_BASE64_BLOB", "warning", "obfuscation",
          "Contains a large base64-like blob",
          "len=" ++ toString n, some (countNl content st + 1), none⟩]
    | none => []
  ruleFindings content ++ zwF ++ b64F

/-- De-dupe by rule_id, keeping the first occurrence. -/
def dedupById : List String → List Finding → List Finding
  | _, [] => []
  | seen, f :: fs =>
      if f.ruleId ∈ seen then dedupById seen fs
      else f :: dedupById (f.ruleId :: seen) fs

/-- `_scan_text`. -/
def scanText (content : List Char) : List Finding :=
  dedupById [] (rawFindings content)

/-! ## Bundle classifier: `scan_skill_dir` -/

/-- A bundle status string. -/
inductive Status where
  | clean | warning | danger | error
deriving Repr, DecidableEq

/-- One file of a bundle as `scan_skill_dir` encounters it: its path,
whether `_is_probably_binary` holds (the byte-sampling heuristic is
abstracted to this field), and the outcome of `read_text` (`.inr msg`
when the read raises with message `msg`, `.inl content` otherwise). -/
structure ScanFile where
  path : String
  isBinary : Bool
  readResult : String ⊕ String
deriving Repr, DecidableEq

/-- An entry of the `files` list in the result dict: either an
`{"file", "error"}` entry or a `{"file", "status", "findings"}` entry. -/
inductive FileEntry where
  | err (file : String) (msg : String)
  | res (file : String) (status : Status) (findings : List Finding)
deriving Repr, DecidableEq

/-- `file_status`: `danger` when any finding is a danger, else `warning`
(only called when `findings` is nonempty). -/
def fileStatusOf (findings : List Finding) : Status :=
  if findings.any fun f => f.severity = "danger" then .danger else .warning

/-- One iteration of the `scan_skill_dir` loop: the status update and the
entry (if any) appended for this file. -/
def scanStep (st : Status) (f : ScanFile) : Status × Option FileEntry :=
  if f.isBinary then (st, none)
  else
    match f.readResult with
    | .inr e => (.error, some (.err f.path e))
    | .inl content =>
        let fs := scanText content.toList
        if fs = [] then (st, none)
        else
          let fst := fileStatusOf fs
          let st' := if fst = .danger then .danger
                     else if st = .clean then .warning else st
          (st', some (.res f.path fst fs))

/-- The whole loop, threading the running status. -/
def scanFold : Status → List ScanFile → Status × List FileEntry
  | st, [] => (st, [])
  | st, f :: fs =>
      let p := scanStep st f
      let q := scanFold p.1 fs
      (q.1, (match p.2 with | some e => [e] | none => []) ++ q.2)

/-- The result dict of `scan_skill_dir`. -/
structure ScanOut where
  status : Status
  files : List FileEntry
  skillHash : Option String
deriving Repr, DecidableEq

/-- `scan_skill_dir`.  The bundle is given as its enumerated file list;
`skillHash` stands for the `_hash_dir` digest (hashing is modelled
separately, over the byte view of the bundle).  The outer
`except`-returns-error path cannot fire here: enumeration and hashing
are total in the model, and per-file read failures are already handled
inside the loop. -/
def scanSkillDir (files : List ScanFile) (skillHash : String) : ScanOut :=
  let p := scanFold .clean files
  ⟨p.1, p.2, some skillHash⟩

/-- The classification-relevant event a file contributes: a read failure,
a danger file, a warning file, or nothing (binary or finding-free). -/
inductive Ev where
  | rerr | dang | warn
deriving Repr, DecidableEq

/-- The event of one file. -/
def evOf (f : ScanFile) : Option Ev :=
  if f.isBinary then none
  else
    match f.readResult with
    | .inr _ => some .rerr
    | .inl content =>
        let fs := scanText content.toList
        if fs = [] then none
        else if fs.any (fun g => g.severity = "danger") then some .dang
        else some .warn

/-- The status updates, as a fold over events. -/
def evStep (st : Status) : Ev → Status
  | .rerr => .error
  | .dang => .danger
  | .warn => if st = .clean then .warning else st

def evFold (st : Status) (evs : List Ev) : Status :=
  evs.foldl evStep st

/-- The order-decisive events: read failures and danger files. -/
def keyEvents (evs : List Ev) : List Ev :=
  evs.filter fun e => e ≠ .warn

/-- Closed-form characterization of the status fold: the LAST read
failure / danger file wins; with neither, any warning file lifts a clean
start to warning. -/
def statusFromEvents (st : Status) (evs : List Ev) : Status :=
  match (keyEvents evs).getLast? with
  | some .rerr => .error
  | some .dang => .danger
  | _ => if .warn ∈ evs then (if st = .clean then .warning else st) else st

/-! ## Hasher: `_hash_dir` -/

/-- One file of a bundle as `_hash_dir` sees it: the UTF-8 bytes of its
posix relative path, and the bytes `read_bytes` returns (`none` when the
read raises). -/
structure HFile where
  path : List Nat
  content : List Nat ⊕ Unit
deriving Repr, DecidableEq

/-- The `b"<UNREADABLE>"` marker. -/
def UNREADABLE : List Nat := ("<UNREADABLE>".toList).map Char.toNat

/-- The content bytes fed to the digest: the file's bytes, or the marker
when the read raised. -/
def contentBytes (f : HFile) : List Nat :=
  match f.content with | .inl c => c | .inr _ => UNREADABLE

/-- The bytes one file feeds to the digest: path, NUL, content (or the
marker), NUL. -/
def hRecord (f : HFile) : List Nat :=
  f.path ++ [0] ++ contentBytes f ++ [0]

/-- A hash-input file is unambiguous when its path and content carry no
NUL byte and a readable content is not the literal unreadable marker
(otherwise distinct bundles can share an encoding). -/
def validHFile (f : HFile) : Prop :=
  0 ∉ f.path ∧
  match f.content with
  | .inl c => 0 ∉ c ∧ c ≠ UNREADABLE
  | .inr _ => True

/-- Strict lexicographic byte order (the order `sorted` by `as_posix`
induces, since UTF-8 preserves code-point order). -/
def bytesLt : List Nat → List Nat → Bool
  | [], [] => false
  | [], _ :: _ => true
  | _ :: _, [] => false
  | a :: as, b :: bs => if a < b then true else if b < a then false else bytesLt as bs

def bytesLe (a b : List Nat) : Bool := !(bytesLt b a)

def fileLe (f g : HFile) : Bool := bytesLe f.path g.path

/-- `sorted(_iter_files(root), key=as_posix)`: a stable sort by path;
stable insertion sort with the same total preorder produces the identical
list. -/
def sortFiles (files : List HFile) : List HFile :=
  List.insertionSort (fun f g => fileLe f g = true) files

/-- The byte sequence `_hash_dir` feeds to SHA-256.  SHA-256 itself is a
fixed injective-modulo-collisions digest, so two bundles hash equal iff
their encodings are equal (up to SHA-256 collisions); all hash claims are
settled on this pre-digest encoding. -/
def hashDirEncoding (files : List HFile) : List Nat :=
  (sortFiles files).flatMap hRecord

/-! ## State store -/

/-- A stored per-skill value: the legacy bare-hash-string form, or the
record form written by `_state_set_skill` (whose `hash` key may be null). -/
inductive StateVal where
  | legacy (hash : String)
  | record (hash : Option String) (status : String) (disposition : String)
      (updatedAt : String)
deriving Repr, DecidableEq

/-- Insertion-ordered dict lookup. -/
def dictGet (k : String) : List (String × StateVal) → Option StateVal
  | [] => none
  | (k', v) :: rest => if k' = k then some v else dictGet k rest

/-- Insertion-ordered dict update: an existing key keeps its position,
a new key is appended. -/
def dictSet (k : String) (v : StateVal) : List (String × StateVal) →
    List (String × StateVal)
  | [] => [(k, v)]
  | (k', v') :: rest =>
      if k' = k then (k, v) :: rest else (k', v') :: dictSet k v rest

/-- The state file's JSON object `{version, skills}`. -/
structure StateData where
  version : Nat
  skills : List (String × StateVal)
deriving Repr, DecidableEq

/-- `_state_get_hash`. -/
def stateGetHash (skills : List (String × StateVal)) (sid : String) :
    Option String :=
  match dictGet sid skills with
  | some (.legacy h) => some h
  | some (.record h _ _ _) => h
  | none => none

/-- `_state_set_skill`; `now` is the `_utcnow_iso()` value. -/
def stateSetSkill (st : StateData) (sid : String) (hash : Option String)
    (status disposition now : String) : StateData :=
  { st with skills := dictSet sid (.record hash status disposition now) st.skills }

/-- What `_load_state` finds at the state path: no file, a file whose
contents fail to parse as JSON, or a parsed state object. -/
inductive StateFileContent where
  | missing
  | unparsable
  | parsed (d : StateData)
deriving Repr, DecidableEq

/-- `_load_state`: missing and unparsable files both fall back to the
empty default state. -/
def loadState : StateFileContent → StateData
  | .missing => ⟨1, []⟩
  | .unparsable => ⟨1, []⟩
  | .parsed d => d

/-! ## Change detection -/

/-- Python's string `<`: lexicographic comparison by code point. -/
def charsLt : List Char → List Char → Bool
  | [], [] => false
  | [], _ :: _ => true
  | _ :: _, [] => false
  | a :: as, b :: bs => if a < b then true else if b < a then false else charsLt as bs

def strLe (a b : String) : Bool := !(charsLt b.toList a.toList)

/-- `sorted(...)` over string ids.  Python's `sorted` is a stable sort by
`<`; a stable insertion sort with the same total preorder produces the
identical list. -/
def sortStr (l : List String) : List String :=
  List.insertionSort (fun a b => strLe a b = true) l

/-- Python set difference / intersection, on (nodup) id lists. -/
def setDiff (a b : List String) : List String := a.filter fun x => x ∉ b

def setInter (a b : List String) : List String := a.filter fun x => x ∈ b

/-- `cmd_find` / `cmd_import`: `new_ids = sorted(source_ids - dest_ids)`
(the state store is not consulted for newness there). -/
def findNewIds (sourceIds destIds : List String) : List String :=
  sortStr (setDiff sourceIds destIds)

/-- `cmd_find` / `cmd_import` updated-detection: baseline hash differs, or
— when the baseline is absent or empty (Python truthiness) — the dest
root's current hash differs. -/
def findUpdatedIds (sourceIds destIds : List String)
    (stateSkills : List (String × StateVal)) (srcHash dstHash : String → String) :
    List String :=
  (sortStr (setInter sourceIds destIds)).filter fun sid =>
    match stateGetHash stateSkills sid with
    | some h =>
        if h ≠ "" then decide (h ≠ srcHash sid)
        else decide (dstHash sid ≠ srcHash sid)
    | none => decide (dstHash sid ≠ srcHash sid)

/-- `cmd_weekly_sync`:
`new_ids = sorted(source_ids - active_ids - inactive_ids - known_state_ids)`. -/
def weeklyNewIds (sourceIds activeIds inactiveIds knownStateIds : List String) :
    List String :=
  sortStr (setDiff (setDiff (setDiff sourceIds activeIds) inactiveIds) knownStateIds)

/-- `cmd_weekly_sync` updated-detection: only a stored baseline hash
(`is None` check: an empty-string baseline still counts) that differs from
the fresh source hash; there is no comparison-root fallback. -/
def weeklyUpdatedIds (sourceIds : List String)
    (stateSkills : List (String × StateVal)) (srcHash : String → String) :
    List String :=
  (sortStr sourceIds).filter fun sid =>
    match stateGetHash stateSkills sid with
    | none => false
    | some h => decide (h ≠ srcHash sid)

/-! ## Transition engine and weekly-sync orchestrator

The filesystem is modelled at the granularity the workflow observes: each
of the three roots is the set (list) of bundle identifiers present in it,
and the shared backup root is the set of backup directory names.  Bundle
byte contents do not influence the weekly-sync control flow (scanning and
hashing of the source are abstracted as the `scan`/`srcHash` environment
fields), so they are not carried.  `clock` enumerates the successive
values returned by `datetime.now` (`_utcnow_iso` timestamps and backup
`strftime` stamps); each call consumes one tick. -/

structure Roots where
  active : List String
  inactive : List String
  quarantine : List String
  backups : List String
deriving Repr, DecidableEq

inductive RootK where
  | active | inactive | quarantine
deriving Repr, DecidableEq

def Roots.get (fs : Roots) : RootK → List String
  | .active => fs.active
  | .inactive => fs.inactive
  | .quarantine => fs.quarantine

def Roots.set (fs : Roots) : RootK → List String → Roots
  | .active, l => { fs with active := l }
  | .inactive, l => { fs with inactive := l }
  | .quarantine, l => { fs with quarantine := l }

def Roots.add (fs : Roots) (r : RootK) (sid : String) : Roots :=
  fs.set r (sid :: fs.get r)

def Roots.remove (fs : Roots) (r : RootK) (sid : String) : Roots :=
  fs.set r ((fs.get r).filter fun x => x ≠ sid)

def Roots.addBackup (fs : Roots) (b : String) : Roots :=
  { fs with backups := b :: fs.backups }

/-- `_copy_skill_dir source/sid → root/sid`: when the destination exists it
is first relocated (`copytree`, which raises if the backup name already
exists, then `rmtree`), and only then is the source copied in.  The raise
is modelled as `.error`. -/
def copySkillDir (clock : Nat → String) (fs : Roots) (t : Nat) (dst : RootK)
    (sid : String) : Except String (Roots × Nat) :=
  if sid ∈ fs.get dst then
    let b := sid ++ "_" ++ clock t
    if b ∈ fs.backups then .error ("backup exists: " ++ b)
    else .ok (((fs.remove dst sid).addBackup b).add dst sid, t + 1)
  else .ok (fs.add dst sid, t)

/-- `_backup_and_remove root/sid`: no-op when absent; otherwise relocate
to a timestamped backup (raising on a backup-name collision). -/
def backupAndRemove (clock : Nat → String) (fs : Roots) (t : Nat) (r : RootK)
    (sid : String) : Except String (Roots × Nat) :=
  if sid ∈ fs.get r then
    let b := sid ++ "_" ++ clock t
    if b ∈ fs.backups then .error ("backup exists: " ++ b)
    else .ok ((fs.remove r sid).addBackup b, t + 1)
  else .ok (fs, t)

/-- `_move_skill_dir`: no-op when the source is absent; otherwise back up
and remove any existing destination, then move (remove from the source
root, add to the destination root). -/
def moveSkillDir (clock : Nat → String) (fs : Roots) (t : Nat)
    (srcR dstR : RootK) (sid : String) : Except String (Roots × Nat) :=
  if sid ∈ fs.get srcR then
    match (if sid ∈ fs.get dstR then backupAndRemove clock fs t dstR sid
           else .ok (fs, t)) with
    | .error e => .error e
    | .ok p => .ok ((p.1.remove srcR sid).add dstR sid, p.2)
  else .ok (fs, t)

/-- `_write_placeholder_skill`: back up and remove any existing
`active/sid`, then create a placeholder bundle there (so the identifier is
present in the active root afterwards).  The synthesized SKILL.md body is
not carried by the model. -/
def writePlaceholder (clock : Nat → String) (fs : Roots) (t : Nat)
    (sid : String) : Except String (Roots × Nat) :=
  match backupAndRemove clock fs t .active sid with
  | .error e => .error e
  | .ok p => .ok (p.1.add .active sid, p.2)

/-- The boolean flags of the `weekly-sync` CLI. -/
structure SyncArgs where
  newOnly : Bool
  noPlaceholderWarnings : Bool
  placeholderDanger : Bool
  allowWarnings : Bool
  dryRun : Bool
deriving Repr, DecidableEq

/-- The inputs of one `cmd_weekly_sync` invocation: the source listing and
its per-bundle hash/scan results, the policy lists (already parsed from
their files), the state file, the initial roots, and the clock. -/
structure SyncEnv where
  sourceIds : List String
  srcHash : String → String
  scan : String → ScanOut
  allowlist : List String
  denylist : List String
  stateFile : StateFileContent
  fs : Roots
  clock : Nat → String

/-- `_filter_candidates_by_policy`, deny checked first. -/
def filterPolicy (allowlist denylist : List String) :
    List String → List String × List String × List String
  | [] => ([], [], [])
  | sid :: rest =>
      let r := filterPolicy allowlist denylist rest
      if sid ∈ denylist then (r.1, sid :: r.2.1, r.2.2)
      else if allowlist ≠ [] ∧ sid ∉ allowlist then (r.1, r.2.1, sid :: r.2.2)
      else (sid :: r.1, r.2.1, r.2.2)

def Status.str : Status → String
  | .clean => "clean"
  | .warning => "warning"
  | .danger => "danger"
  | .error => "error"

/-- The `summary` dict of the weekly report. -/
structure Summary where
  totalCandidates : Nat
  cleanActivated : Nat
  warningPlaceholder : Nat
  dangerQuarantined : Nat
  errorQuarantined : Nat
  policyDenied : Nat
  skippedAllowlist : Nat
deriving Repr, DecidableEq

/-- One entry of `details["actions"]`. -/
structure Action where
  skillId : String
  status : String
  action : String
deriving Repr, DecidableEq

/-- The `details` dict of the weekly report. -/
structure Details where
  newIds : List String
  updatedIds : List String
  policyDenied : List String
  skippedAllowlist : List String
  actions : List Action
deriving Repr, DecidableEq

/-- The `meta` dict of the weekly report (the four configured paths are
invocation constants and are not carried). -/
structure Meta where
  startedAt : String
  includeUpdates : Bool
  placeholderWarnings : Bool
  placeholderDanger : Bool
  allowWarnings : Bool
  dryRun : Bool
  finishedAt : String
deriving Repr, DecidableEq

structure Report where
  meta : Meta
  summary : Summary
  details : Details
deriving Repr, DecidableEq

/-- The verdict markdown, line by line. -/
def verdictLines (s : Summary) : List String :=
  ["# Weekly Skills Sync Verdict",
   "",
   "- **Candidates**: " ++ toString s.totalCandidates,
   "- **Activated (clean)**: " ++ toString s.cleanActivated,
   "- **Warnings (placeholder/inactive)**: " ++ toString s.warningPlaceholder,
   "- **Danger quarantined**: " ++ toString s.dangerQuarantined,
   "- **Errors quarantined**: " ++ toString s.errorQuarantined,
   "- **Policy denied**: " ++ toString s.policyDenied,
   "- **Skipped by allowlist**: " ++ toString s.skippedAllowlist]

/-- The evolving state of the weekly-sync loops.  `scanned` is pure
instrumentation: it records, in order, the identifiers handed to
`scan_skill_dir` (needed to state that deny-listed bundles are never
scanned); no control flow reads it. -/
structure LoopSt where
  fs : Roots
  state : StateData
  tick : Nat
  summary : Summary
  actions : List Action
  scanned : List String
deriving Repr, DecidableEq

/-- The `for sid in denied_by_policy` loop body: force-quarantine (no
scan), recording disposition `quarantine_policy`. -/
def deniedStep (env : SyncEnv) (args : SyncArgs) (st : LoopSt) (sid : String) :
    Except String LoopSt :=
  if sid ∈ env.sourceIds ∧ args.dryRun = false then
    match copySkillDir env.clock st.fs st.tick .quarantine sid with
    | .error e => .error e
    | .ok p =>
        let state1 := stateSetSkill st.state sid (some (env.srcHash sid))
          "danger" "quarantine_policy" (env.clock p.2)
        .ok { st with fs := p.1, tick := p.2 + 1, state := state1 }
  else .ok st

/-- The `for sid in filtered` loop body. -/
def filteredStep (env : SyncEnv) (args : SyncArgs) (st : LoopSt) (sid : String) :
    Except String LoopSt :=
  if sid ∉ env.sourceIds then
    .ok { st with actions := st.actions ++ [⟨sid, "missing", "skip"⟩] }
  else
    let scanRes := env.scan sid
    let st := { st with scanned := st.scanned ++ [sid] }
    let hash := scanRes.skillHash
    match scanRes.status with
    | .clean =>
        let st := { st with
          summary := { st.summary with cleanActivated := st.summary.cleanActivated + 1 } }
        if args.dryRun then
          .ok { st with actions := st.actions ++ [⟨sid, "clean", "would_activate"⟩] }
        else
          match copySkillDir env.clock st.fs st.tick .active sid with
          | .error e => .error e
          | .ok p =>
              -- `if (inactive / sid).exists(): _backup_and_remove(...)`;
              -- `_backup_and_remove` itself no-ops on a missing path.
              match backupAndRemove env.clock p.1 p.2 .inactive sid with
              | .error e => .error e
              | .ok q =>
                  let state1 := stateSetSkill st.state sid hash "clean" "active"
                    (env.clock q.2)
                  .ok { st with fs := q.1, tick := q.2 + 1, state := state1 }
    | .warning =>
        let st := { st with
          summary := { st.summary with
            warningPlaceholder := st.summary.warningPlaceholder + 1 } }
        if args.dryRun then
          .ok { st with actions := st.actions ++ [⟨sid, "warning", "would_placeholder"⟩] }
        else
          match copySkillDir env.clock st.fs st.tick .inactive sid with
          | .error e => .error e
          | .ok p =>
              if args.noPlaceholderWarnings = false then
                match writePlaceholder env.clock p.1 p.2 sid with
                | .error e => .error e
                | .ok q =>
                    let state1 := stateSetSkill st.state sid hash "warning"
                      "inactive_placeholder" (env.clock q.2)
                    .ok { st with fs := q.1, tick := q.2 + 1, state := state1 }
              else if args.allowWarnings then
                match copySkillDir env.clock p.1 p.2 .active sid with
                | .error e => .error e
                | .ok q =>
                    let state1 := stateSetSkill st.state sid hash "warning"
                      "active_warning" (env.clock q.2)
                    .ok { st with fs := q.1, tick := q.2 + 1, state := state1 }
              else
                let state1 := stateSetSkill st.state sid hash "warning"
                  "inactive_only" (env.clock p.2)
                .ok { st with fs := p.1, tick := p.2 + 1, state := state1 }
    | status => -- danger or error -> quarantine and block from active
        let st := { st with
          summary :=
            if status = Status.danger then
              { st.summary with
                dangerQuarantined := st.summary.dangerQuarantined + 1 }
            else
              { st.summary with
                errorQuarantined := st.summary.errorQuarantined + 1 } }
        if args.dryRun then
          .ok { st with
            actions := st.actions ++ [⟨sid, status.str, "would_quarantine"⟩] }
        else
          match copySkillDir env.clock st.fs st.tick .quarantine sid with
          | .error e => .error e
          | .ok p =>
              -- `if (active / sid).exists(): _backup_and_remove(...)`
              match backupAndRemove env.clock p.1 p.2 .active sid with
              | .error e => .error e
              | .ok q =>
                  if status = Status.danger ∧ args.placeholderDanger then
                    match writePlaceholder env.clock q.1 q.2 sid with
                    | .error e => .error e
                    | .ok w =>
                        let state1 := stateSetSkill st.state sid hash status.str
                          "quarantine_placeholder" (env.clock w.2)
                        .ok { st with fs := w.1, tick := w.2 + 1, state := state1 }
                  else
                    let state1 := stateSetSkill st.state sid hash status.str
                      "quarantine" (env.clock q.2)
                    .ok { st with fs := q.1, tick := q.2 + 1, state := state1 }

/-- The candidate set of a run: new ∪ (updated unless `--new-only`). -/
def weeklyCandidates (env : SyncEnv) (args : SyncArgs) : List String :=
  let state0 := loadState env.stateFile
  let newIds := weeklyNewIds env.sourceIds env.fs.active env.fs.inactive
    (state0.skills.map Prod.fst)
  let updatedIds := weeklyUpdatedIds env.sourceIds state0.skills env.srcHash
  if args.newOnly then newIds else newIds ++ updatedIds

/-- The exception-propagating per-candidate loop: a raise from a
transition primitive aborts the remaining iterations. -/
def foldE (step : LoopSt → String → Except String LoopSt) :
    LoopSt → List String → Except String LoopSt
  | st, [] => .ok st
  | st, sid :: rest =>
      match step st sid with
      | .error e => .error e
      | .ok st1 => foldE step st1 rest

/-- The policy partition of the candidate set:
`(filtered, denied_by_policy, skipped_by_allowlist)`. -/
def weeklyParts (env : SyncEnv) (args : SyncArgs) :
    List String × List String × List String :=
  filterPolicy env.allowlist env.denylist (weeklyCandidates env args)

/-- The summary increment one filtered candidate contributes (read off the
loop: it depends only on the candidate's presence in the source and its
scan status, never on the dry-run flag). -/
def sumDelta (env : SyncEnv) (sid : String) (s : Summary) : Summary :=
  if sid ∈ env.sourceIds then
    match (env.scan sid).status with
    | .clean => { s with cleanActivated := s.cleanActivated + 1 }
    | .warning => { s with warningPlaceholder := s.warningPlaceholder + 1 }
    | .danger => { s with dangerQuarantined := s.dangerQuarantined + 1 }
    | .error => { s with errorQuarantined := s.errorQuarantined + 1 }
  else s

/-- The initial loop state of a run: the given roots, the loaded state,
tick 0, the summary pre-filled with the candidate/policy counts, no
actions, nothing scanned. -/
def initSt (env : SyncEnv) (args : SyncArgs) : LoopSt :=
  ⟨env.fs, loadState env.stateFile, 0,
    ⟨(weeklyCandidates env args).length, 0, 0, 0, 0,
      (weeklyParts env args).2.1.length, (weeklyParts env args).2.2.length⟩,
    [], []⟩

/-- The result of a completed (non-raising) `cmd_weekly_sync` run.
`report` and `verdict` are written to disk unconditionally (dry runs
included); `persistedState` is the state file write, skipped on dry
runs. -/
structure SyncResult where
  fs : Roots
  state : StateData
  persistedState : Option StateData
  report : Report
  verdict : List String
  scanned : List String
deriving Repr, DecidableEq

/-- `cmd_weekly_sync`, from change detection to report/verdict/state
persistence.  An uncaught exception from a transition primitive (backup
collision) surfaces as `.error`: the run aborts with no report, no
verdict and no state write. -/
def weeklySync (env : SyncEnv) (args : SyncArgs) : Except String SyncResult :=
  let state0 := loadState env.stateFile
  let newIds := weeklyNewIds env.sourceIds env.fs.active env.fs.inactive
    (state0.skills.map Prod.fst)
  let updatedIds := weeklyUpdatedIds env.sourceIds state0.skills env.srcHash
  let parts := weeklyParts env args
  let st0 := initSt env args
  match foldE (deniedStep env args) st0 parts.2.1 with
  | .error e => .error e
  | .ok st1 =>
      match foldE (filteredStep env args) st1 parts.1 with
      | .error e => .error e
      | .ok st2 =>
          let meta : Meta := ⟨env.clock st2.tick, !args.newOnly,
            !args.noPlaceholderWarnings, args.placeholderDanger,
            args.allowWarnings, args.dryRun, env.clock (st2.tick + 1)⟩
          let report : Report :=
            ⟨meta, st2.summary,
              ⟨newIds, updatedIds, parts.2.1, parts.2.2, st2.actions⟩⟩
          .ok ⟨st2.fs, st2.state,
            if args.dryRun then none else some st2.state,
            report, verdictLines st2.summary, st2.scanned⟩

/-! ## Concrete scenarios used to witness the orchestrator theorems -/

/-- Default weekly-sync flags (no `--new-only`, placeholders enabled,
warnings blocked, real run). -/
def argsW : SyncArgs := ⟨false, false, false, false, false⟩

/-- Scenario: clean candidate `c`, dangerous candidate `d`, stale copy
`q0` already in quarantine. -/
def envW1 : SyncEnv :=
  ⟨["c", "d"], fun _ => "h",
    fun sid => if sid = "d" then ⟨.danger, [], some "h"⟩ else ⟨.clean, [], some "h"⟩,
    [], [], .missing, ⟨[], [], ["q0"], []⟩, fun n => "T" ++ toString n⟩

/-- The result the weekly sync computes on `envW1`. -/
def stateW1 : StateData :=
  ⟨1, [("c", .record (some "h") "clean" "active" "T0"),
       ("d", .record (some "h") "danger" "quarantine" "T1")]⟩

/-- The result the weekly sync computes on `envW1` with `argsW`. -/
def resW1 : SyncResult :=
  ⟨⟨["c"], [], ["d", "q0"], []⟩, stateW1, some stateW1,
    ⟨⟨"T2", true, true, false, false, false, "T3"⟩, ⟨2, 1, 0, 1, 0, 0, 0⟩,
      ⟨["c", "d"], [], [], [], []⟩⟩,
    verdictLines ⟨2, 1, 0, 1, 0, 0, 0⟩, ["c", "d"]⟩

/-- Scenario: a single clean candidate `a` over empty roots and state. -/
def envW2 : SyncEnv :=
  ⟨["a"], fun _ => "h", fun _ => ⟨.clean, [], some "h"⟩, [], [],
    .missing, ⟨[], [], [], []⟩, fun n => "T" ++ toString n⟩

/-- The state the weekly sync records on `envW2`. -/
def stateW2 : StateData := ⟨1, [("a", .record (some "h") "clean" "active" "T0")]⟩

/-- The result the weekly sync computes on `envW2` with `argsW`. -/
def resW2 : SyncResult :=
  ⟨⟨["a"], [], [], []⟩, stateW2, some stateW2,
    ⟨⟨"T1", true, true, false, false, false, "T2"⟩, ⟨1, 1, 0, 0, 0, 0, 0⟩,
      ⟨["a"], [], [], [], []⟩⟩,
    verdictLines ⟨1, 1, 0, 0, 0, 0, 0⟩, ["a"]⟩

/-- Scenario: deny-listed candidate `d` next to a clean candidate `x`. -/
def envW3 : SyncEnv :=
  ⟨["d", "x"], fun _ => "h", fun _ => ⟨.clean, [], some "h"⟩, [], ["d"],
    .missing, ⟨[], [], [], []⟩, fun n => "T" ++ toString n⟩

/-- The state the weekly sync records on `envW3`. -/
def stateW3 : StateData :=
  ⟨1, [("d", .record (some "h") "danger" "quarantine_policy" "T0"),
       ("x", .record (some "h") "clean" "active" "T1")]⟩

/-- The result the weekly sync computes on `envW3` with `argsW`. -/
def resW3 : SyncResult :=
  ⟨⟨["x"], [], ["d"], []⟩, stateW3, some stateW3,
    ⟨⟨"T2", true, true, false, false, false, "T3"⟩, ⟨2, 1, 0, 0, 0, 1, 0⟩,
      ⟨["d", "x"], [], ["d"], [], []⟩⟩,
    verdictLines ⟨2, 1, 0, 0, 0, 1, 0⟩, ["x"]⟩

/-- Scenario: clean candidate `a` already active, with a same-second
backup name already taken. -/
def envW7 : SyncEnv :=
  ⟨["a"], fun _ => "h", fun _ => ⟨.clean, [], some "h"⟩, [], [],
    .missing, ⟨["a"], [], [], ["a_T0"]⟩, fun n => "T" ++ toString n⟩

/-! ## Basic lemmas -/

theorem mem_sortStr {sid : String} {l : List String} :
    sid ∈ sortStr l ↔ sid ∈ l := by
  simp [sortStr]

theorem mem_setDiff {sid : String} {a b : List String} :
    sid ∈ setDiff a b ↔ sid ∈ a ∧ sid ∉ b := by
  simp [setDiff]

theorem mem_setInter {sid : String} {a b : List String} :
    sid ∈ setInter a b ↔ sid ∈ a ∧ sid ∈ b := by
  simp [setInter]

theorem setDiff_nil (l : List String) : setDiff l [] = l := by
  simp [setDiff]

theorem dictGet_eq_none {sid : String} {d : List (String × StateVal)} :
    dictGet sid d = none ↔ sid ∉ d.map Prod.fst := by
  induction d with
  | nil => simp [dictGet]
  | cons kv rest ih =>
      obtain ⟨k, v⟩ := kv
      by_cases h : k = sid
      · subst h; simp [dictGet]
      · simp [dictGet, h, ih, Ne.symm h]

theorem dictGet_set_self (k : String) (v : StateVal) (d : List (String × StateVal)) :
    dictGet k (dictSet k v d) = some v := by
  induction d with
  | nil => simp [dictGet, dictSet]
  | cons kv rest ih =>
      obtain ⟨k', v'⟩ := kv
      by_cases h : k' = k <;> simp [dictGet, dictSet, h, ih]

theorem dictGet_set_other {k k' : String} (h : k' ≠ k) (v : StateVal)
    (d : List (String × StateVal)) :
    dictGet k (dictSet k' v d) = dictGet k d := by
  induction d with
  | nil => simp [dictGet, dictSet, h]
  | cons kv rest ih =>
      obtain ⟨k'', v''⟩ := kv
      by_cases h1 : k'' = k' <;> by_cases h2 : k'' = k <;>
        simp_all [dictGet, dictSet]

/-! ## C9 -/

/-- C9: a file whose text is exactly `rm -rf /` yields exactly one
finding, of severity danger under rule `RM_RF_ROOT`, the file's status is
danger, and a bundle consisting of that file classifies as danger. -/
theorem c9_rm_rf_root_danger :
    ((scanText "rm -rf /".toList).map fun f => (f.ruleId, f.severity)) =
      [("RM_RF_ROOT", "danger")] ∧
    fileStatusOf (scanText "rm -rf /".toList) = .danger ∧
    (scanSkillDir [⟨"SKILL.md", false, .inl "rm -rf /"⟩] "h").status = .danger ∧
    (scanSkillDir [⟨"SKILL.md", false, .inl "rm -rf /"⟩] "h").files =
      [.res "SKILL.md" .danger (scanText "rm -rf /".toList)] := by
  decide

/-! ## C10 -/

/-- C10: `_load_state` returns the empty default state both when the file
is missing and when its contents fail to parse as JSON; consequently a
corrupt state file discards the whole baseline: weekly-sync update
detection finds nothing, and newness detection no longer excludes any
previously-known identifier (it degenerates to source minus the two
roots). -/
theorem c10_load_state_fallback :
    loadState .missing = { version := 1, skills := [] } ∧
    loadState .unparsable = { version := 1, skills := [] } ∧
    (∀ (sourceIds activeIds inactiveIds : List String) (srcHash : String → String),
      weeklyUpdatedIds sourceIds (loadState .unparsable).skills srcHash = [] ∧
      weeklyNewIds sourceIds activeIds inactiveIds
          ((loadState .unparsable).skills.map Prod.fst) =
        sortStr (setDiff (setDiff sourceIds activeIds) inactiveIds)) := by
  refine ⟨rfl, rfl, fun sourceIds activeIds inactiveIds srcHash => ⟨?_, ?_⟩⟩
  · simp [weeklyUpdatedIds, stateGetHash, dictGet, loadState]
  · simp [weeklyNewIds, loadState, setDiff_nil]

/-! ## C5 -/

/-- C5 counterexample: in `cmd_find`'s change detection the state store is
not consulted for newness.  The identifier `s` is known to the state
(`_state_get_hash` returns a baseline) and absent from the comparison
root, yet it is classified as new — the claim says an identifier is new
exactly when absent from both the comparison root and the state.  (The
weekly-sync detector has the converse mismatch: with no baseline hash it
never falls back to comparing against a root's current hash, so nothing
is classified updated from an empty state.) -/
theorem c5_change_detection_counterexample :
    "s" ∈ findNewIds ["s"] [] ∧
    stateGetHash [("s", StateVal.legacy "h")] "s" = some "h" ∧
    weeklyUpdatedIds ["s"] [] (fun _ => "h2") = [] := by
  refine ⟨?_, rfl, rfl⟩
  decide

/-- C5 amended: the two change detectors differ.  In `cmd_find` /
`cmd_import`, "new" means absent from the comparison root only (the state
store is not consulted), and "updated" means the (truthy) baseline hash
differs from the fresh source hash, falling back to the comparison root's
hash when the baseline is absent or empty.  In `cmd_weekly_sync`, "new"
means absent from the active root, the inactive root and the state store,
and "updated" means a stored baseline hash exists (even an empty one) and
differs from the fresh source hash, with no comparison-root fallback;
"unchanged" is otherwise in both. -/
theorem c5_change_detection_amended
    (sourceIds destIds activeIds inactiveIds knownIds : List String)
    (stateSkills : List (String × StateVal)) (srcHash dstHash : String → String)
    (sid : String) :
    (sid ∈ findNewIds sourceIds destIds ↔ sid ∈ sourceIds ∧ sid ∉ destIds) ∧
    (sid ∈ findUpdatedIds sourceIds destIds stateSkills srcHash dstHash ↔
      sid ∈ sourceIds ∧ sid ∈ destIds ∧
        ((∃ h, stateGetHash stateSkills sid = some h ∧ h ≠ "" ∧ h ≠ srcHash sid) ∨
         ((stateGetHash stateSkills sid = none ∨ stateGetHash stateSkills sid = some "") ∧
           dstHash sid ≠ srcHash sid))) ∧
    (sid ∈ weeklyNewIds sourceIds activeIds inactiveIds knownIds ↔
      sid ∈ sourceIds ∧ sid ∉ activeIds ∧ sid ∉ inactiveIds ∧ sid ∉ knownIds) ∧
    (sid ∈ weeklyUpdatedIds sourceIds stateSkills srcHash ↔
      sid ∈ sourceIds ∧ ∃ h, stateGetHash stateSkills sid = some h ∧ h ≠ srcHash sid) := by
  refine ⟨?_, ?_, ?_, ?_⟩
  · simp [findNewIds, mem_sortStr, mem_setDiff]
  · simp only [findUpdatedIds, List.mem_filter, mem_sortStr, mem_setInter]
    rcases h : stateGetHash stateSkills sid with _ | hh
    · simp [h, and_assoc]
    · by_cases he : hh = ""
      · subst he
        simp [h, and_assoc]
      · simp [h, he, and_assoc]
  · rw [weeklyNewIds, mem_sortStr, mem_setDiff, mem_setDiff, mem_setDiff, and_assoc, and_assoc]
  · simp only [weeklyUpdatedIds, List.mem_filter, mem_sortStr]
    rcases h : stateGetHash stateSkills sid with _ | hh <;> simp [h]

/-! ## C8 -/

theorem map_key_filterMap_sublist {α β γ : Type} (g : α → Option β)
    (key : β → γ) (keyf : α → γ) (h : ∀ a b, g a = some b → key b = keyf a) :
    ∀ l : List α, ((l.filterMap g).map key).Sublist (l.map keyf)
  | [] => by simp
  | a :: l => by
      rcases hg : g a with _ | b
      · simpa [List.filterMap_cons, hg] using
          (map_key_filterMap_sublist g key keyf h l).cons (keyf a)
      · simpa [List.filterMap_cons, hg, h a b hg] using
          (map_key_filterMap_sublist g key keyf h l).cons₂ (keyf a)

theorem canonicalRuleIds_nodup : canonicalRuleIds.Nodup := by decide

theorem rawFindings_ids_sublist (content : List Char) :
    ((rawFindings content).map Finding.ruleId).Sublist canonicalRuleIds := by
  have h1 : ((ruleFindings content).map Finding.ruleId).Sublist
      (RULES.map Rule.ruleId) := by
    apply map_key_filterMap_sublist
    intro r f hr
    rcases hs : Rx.search r.pattern content with _ | p
    · simp [hs] at hr
    · obtain ⟨st, ln⟩ := p
      simp only [hs] at hr
      cases hr
      rfl
  have hca : canonicalRuleIds =
      (RULES.map Rule.ruleId ++ ["OBFUSCATION_ZERO_WIDTH"]) ++
        ["OBFUSCATION_BASE64_BLOB"] := by
    rw [canonicalRuleIds, List.append_assoc]
    rfl
  rw [hca]
  simp only [rawFindings, List.map_append]
  refine (h1.append ?_).append ?_
  · by_cases hz : (content.filter isZeroWidth).length ≠ 0
    · rw [if_pos hz]
      exact List.Sublist.refl _
    · rw [if_neg hz]
      exact List.nil_sublist _
  · rcases hb : firstB64Blob content with _ | p
    · simp only [hb]
      exact List.nil_sublist _
    · obtain ⟨bst, bn⟩ := p
      simp only [hb]
      exact List.Sublist.refl _

theorem rawFindings_ids_nodup (content : List Char) :
    ((rawFindings content).map Finding.ruleId).Nodup :=
  canonicalRuleIds_nodup.sublist (rawFindings_ids_sublist content)

theorem dedupById_eq_self : ∀ (seen : List String) (fs : List Finding),
    (fs.map Finding.ruleId).Nodup → (∀ f ∈ fs, f.ruleId ∉ seen) →
    dedupById seen fs = fs
  | _, [], _, _ => rfl
  | seen, f :: fs, hnd, hseen => by
      have hf : f.ruleId ∉ seen := hseen f (List.mem_cons_self f fs)
      simp only [dedupById]
      rw [if_neg hf,
        dedupById_eq_self (f.ruleId :: seen) fs (by simp at hnd; exact hnd.2)
        (fun g hg => by
          simp only [List.mem_cons]
          push_neg
          refine ⟨?_, hseen g (List.mem_cons_of_mem f hg)⟩
          intro he
          simp only [List.map_cons, List.nodup_cons] at hnd
          exact hnd.1 (he ▸ List.mem_map_of_mem Finding.ruleId hg))]

theorem scanText_eq_rawFindings (content : List Char) :
    scanText content = rawFindings content :=
  dedupById_eq_self [] (rawFindings content) (rawFindings_ids_nodup content)
    (by simp)

/-- C8 counterexample: on the text `exec(\nrm -rf /\n` the scanner's
output lists the `RM_RF_ROOT` finding (whose first match starts at line 2,
column 1) before the `EXEC_CALL` finding (whose first match starts at
line 1, column 1): the list is ordered by the rules' declaration order in
`RULES`, not by the position of each finding's first match in the text. -/
theorem c8_scan_order_counterexample :
    ((scanText "exec(\nrm -rf /\n".toList).map fun f => (f.ruleId, f.line, f.col)) =
      [("RM_RF_ROOT", some 2, some 1), ("EXEC_CALL", some 1, some 1)] := by
  decide

/-- C8 amended: `_scan_text` returns findings deduplicated by rule
identifier (first kept; in fact each rule contributes at most one finding,
so deduplication never drops anything), ordered by rule DECLARATION order
(the pattern rules in `RULES` order, then the synthetic zero-width and
base64-blob findings) rather than by first-match position; each matched
pattern rule contributes exactly the finding built from its first match. -/
theorem c8_scan_order_amended (content : List Char) :
    ((scanText content).map Finding.ruleId).Nodup ∧
    ((scanText content).map Finding.ruleId).Sublist canonicalRuleIds ∧
    (∀ r ∈ RULES, ∀ st ln, Rx.search r.pattern content = some (st, ln) →
      mkRuleFinding r content st ln ∈ scanText content) ∧
    (∀ f ∈ scanText content, f.ruleId ≠ "OBFUSCATION_ZERO_WIDTH" →
      f.ruleId ≠ "OBFUSCATION_BASE64_BLOB" →
      ∃ r ∈ RULES, ∃ st ln, Rx.search r.pattern content = some (st, ln) ∧
        f = mkRuleFinding r content st ln) := by
  rw [scanText_eq_rawFindings]
  refine ⟨rawFindings_ids_nodup content, rawFindings_ids_sublist content, ?_, ?_⟩
  · intro r hr st ln hs
    have : mkRuleFinding r content st ln ∈ ruleFindings content := by
      rw [ruleFindings, List.mem_filterMap]
      exact ⟨r, hr, by simp [hs]⟩
    rw [rawFindings]
    simp only [List.mem_append]
    exact Or.inl (Or.inl this)
  · intro f hf hzw hb64
    rw [rawFindings] at hf
    simp only [List.mem_append] at hf
    rcases hf with (hf | hf) | hf
    · rw [ruleFindings, List.mem_filterMap] at hf
      obtain ⟨r, hr, hg⟩ := hf
      rcases hs : Rx.search r.pattern content with _ | p
      · simp [hs] at hg
      · obtain ⟨st, ln⟩ := p
        simp only [hs] at hg
        cases hg
        exact ⟨r, hr, st, ln, hs, rfl⟩
    · by_cases hz : ((content.filter isZeroWidth).length ≠ 0) <;>
        simp only [hz, if_true, if_false, ite_not] at hf <;>
        simp_all
    · rcases hbb : firstB64Blob content with _ | p
      · simp [hbb] at hf
      · obtain ⟨bst, bn⟩ := p
        simp only [hbb] at hf
        simp only [List.mem_singleton] at hf
        subst hf
        simp at hb64

/-- Witness for the C8 amended theorem at the concrete text `rm -rf /`
(rule 7 of the table is `RM_RF_ROOT`, whose first match is at 0 with
length 8). -/
theorem c8_scan_order_amended_witness :
    ((scanText "rm -rf /".toList).map Finding.ruleId).Nodup ∧
    mkRuleFinding (RULES.get ⟨7, by decide⟩) "rm -rf /".toList 0 8 ∈
      scanText "rm -rf /".toList ∧
    (∃ r ∈ RULES, ∃ st ln,
      Rx.search r.pattern "rm -rf /".toList = some (st, ln) ∧
      mkRuleFinding (RULES.get ⟨7, by decide⟩) "rm -rf /".toList 0 8 =
        mkRuleFinding r "rm -rf /".toList st ln) := by
  have h := c8_scan_order_amended "rm -rf /".toList
  have hmem := h.2.2.1 (RULES.get ⟨7, by decide⟩)
    (RULES.get_mem 7 (by decide)) 0 8 (by decide)
  exact ⟨h.1, hmem, h.2.2.2 _ hmem (by decide) (by decide)⟩

/-! ## C4 -/

theorem scanStep_fst (st : Status) (f : ScanFile) :
    (scanStep st f).1 =
      (match evOf f with | none => st | some e => evStep st e) := by
  rcases f with ⟨path, bin, rr⟩
  cases bin
  · cases rr with
    | inl content =>
        by_cases hfs : scanText content.data = []
        · simp [scanStep, evOf, String.toList, hfs]
        · by_cases hd : ∃ x ∈ scanText content.data, x.severity = "danger"
          · simp [scanStep, evOf, String.toList, hfs, hd, fileStatusOf, evStep]
          · simp [scanStep, evOf, String.toList, hfs, hd, fileStatusOf, evStep]
    | inr e => simp [scanStep, evOf, evStep]
  · simp [scanStep, evOf]

theorem scanFold_fst_eq_evFold : ∀ (files : List ScanFile) (st : Status),
    (scanFold st files).1 = evFold st (files.filterMap evOf)
  | [], st => rfl
  | f :: fs, st => by
      rw [scanFold, List.filterMap_cons]
      have h := scanStep_fst st f
      rcases he : evOf f with _ | e
      · rw [he] at h
        simp only [evFold, List.foldl]
        rw [← evFold, ← scanFold_fst_eq_evFold fs st, h]
      · rw [he] at h
        simp only [evFold, List.foldl_cons]
        rw [← evFold, ← scanFold_fst_eq_evFold fs (evStep st e), h]

theorem keyEvents_getLast_ne_warn (evs : List Ev) :
    (keyEvents evs).getLast? ≠ some .warn := by
  intro h
  have hm : Ev.warn ∈ keyEvents evs := List.mem_of_getLast?_eq_some h
  rw [keyEvents, List.mem_filter] at hm
  simp at hm

theorem evFold_spec (evs : List Ev) : ∀ st, evFold st evs = statusFromEvents st evs := by
  induction evs using List.reverseRecOn with
  | nil => intro st; simp [evFold, statusFromEvents, keyEvents]
  | append_singleton evs e ih =>
      intro st
      have hfold : evFold st (evs ++ [e]) = evStep (evFold st evs) e := by
        simp [evFold]
      rw [hfold, ih st]
      cases e with
      | rerr =>
          have hk : keyEvents (evs ++ [Ev.rerr]) = keyEvents evs ++ [Ev.rerr] := by
            simp [keyEvents]
          have hr : statusFromEvents st (evs ++ [Ev.rerr]) = Status.error := by
            rw [statusFromEvents, hk, List.getLast?_concat]
          rw [hr]
          rfl
      | dang =>
          have hk : keyEvents (evs ++ [Ev.dang]) = keyEvents evs ++ [Ev.dang] := by
            simp [keyEvents]
          have hr : statusFromEvents st (evs ++ [Ev.dang]) = Status.danger := by
            rw [statusFromEvents, hk, List.getLast?_concat]
          rw [hr]
          rfl
      | warn =>
          have hk : keyEvents (evs ++ [Ev.warn]) = keyEvents evs := by
            simp [keyEvents]
          have hw : Ev.warn ∈ evs ++ [Ev.warn] := by simp
          rw [statusFromEvents, statusFromEvents, hk]
          rcases hg : (keyEvents evs).getLast? with _ | ev
          · simp only [hw, if_true]
            by_cases hwe : Ev.warn ∈ evs
            · simp only [hwe, if_true]
              by_cases hst : st = Status.clean
              · subst hst; simp [evStep]
              · simp [evStep, hst, if_neg hst]
            · simp only [hwe, if_false]
              by_cases hst : st = Status.clean
              · subst hst; simp [evStep]
              · simp [evStep, hst]
          · cases ev with
            | rerr => simp [evStep]
            | dang => simp [evStep]
            | warn => exact absurd hg (keyEvents_getLast_ne_warn evs)

/-- C4 counterexample: a bundle whose first file fails to read and whose
second file carries danger findings classifies as `danger`, not `error` —
a later danger file overwrites the error status, so "error whenever any
file read fails" is false. -/
theorem c4_error_status_counterexample :
    evOf ⟨"bad.md", false, .inr "Permission denied"⟩ = some .rerr ∧
    (scanSkillDir [⟨"bad.md", false, .inr "Permission denied"⟩,
        ⟨"evil.md", false, .inl "rm -rf /"⟩] "H").status = .danger := by
  constructor
  · rfl
  · decide

/-- C4 amended: the bundle status is decided by the LAST status-writing
event in file-enumeration order — `error` exactly when some read fails
and no danger file is processed after the last failing read, `danger`
exactly when some danger file is processed and no read fails after the
last one; with neither kind of event the status is `warning` when some
file has findings and `clean` otherwise. -/
theorem c4_bundle_status_amended (files : List ScanFile) (skillHash : String) :
    (scanSkillDir files skillHash).status =
      statusFromEvents .clean (files.filterMap evOf) ∧
    ((scanSkillDir files skillHash).status = .error ↔
      (keyEvents (files.filterMap evOf)).getLast? = some .rerr) ∧
    ((scanSkillDir files skillHash).status = .danger ↔
      (keyEvents (files.filterMap evOf)).getLast? = some .dang) ∧
    (keyEvents (files.filterMap evOf) = [] →
      (scanSkillDir files skillHash).status =
        if Ev.warn ∈ files.filterMap evOf then .warning else .clean) := by
  have hmain : (scanSkillDir files skillHash).status =
      statusFromEvents .clean (files.filterMap evOf) := by
    show (scanFold .clean files).1 = _
    rw [scanFold_fst_eq_evFold, evFold_spec]
  refine ⟨hmain, ?_, ?_, ?_⟩
  · rw [hmain, statusFromEvents]
    rcases hg : (keyEvents (files.filterMap evOf)).getLast? with _ | ev
    · by_cases hw : Ev.warn ∈ files.filterMap evOf <;> simp [hw]
    · cases ev with
      | rerr => simp
      | dang => simp
      | warn => exact absurd hg (keyEvents_getLast_ne_warn _)
  · rw [hmain, statusFromEvents]
    rcases hg : (keyEvents (files.filterMap evOf)).getLast? with _ | ev
    · by_cases hw : Ev.warn ∈ files.filterMap evOf <;> simp [hw]
    · cases ev with
      | rerr => simp
      | dang => simp
      | warn => exact absurd hg (keyEvents_getLast_ne_warn _)
  · intro hk
    rw [hmain, statusFromEvents, hk]
    rfl

/-! ## C6 -/

theorem bytesLt_nil_right : ∀ a : List Nat, bytesLt a [] = false := by
  intro a
  cases a <;> rfl

theorem bytesLt_asymm : ∀ a b : List Nat,
    bytesLt a b = true → bytesLt b a = true → False := by
  intro a
  induction a with
  | nil =>
      intro b h1 h2
      rw [bytesLt_nil_right] at h2
      exact absurd h2 (by simp)
  | cons x xs ih =>
      intro b h1 h2
      cases b with
      | nil =>
          rw [bytesLt_nil_right] at h1
          exact absurd h1 (by simp)
      | cons y ys =>
          rw [bytesLt] at h1 h2
          by_cases hxy : x < y
          · rw [if_neg (by omega : ¬ y < x), if_pos hxy] at h2
            exact absurd h2 (by simp)
          · by_cases hyx : y < x
            · rw [if_neg hxy, if_pos hyx] at h1
              exact absurd h1 (by simp)
            · rw [if_neg hxy, if_neg hyx] at h1
              rw [if_neg hyx, if_neg hxy] at h2
              exact ih ys h1 h2

theorem bytesLt_trans : ∀ a b c : List Nat,
    bytesLt a b = true → bytesLt b c = true → bytesLt a c = true := by
  intro a
  induction a with
  | nil =>
      intro b c h1 h2
      cases c with
      | nil =>
          rw [bytesLt_nil_right] at h2
          exact absurd h2 (by simp)
      | cons z zs => rfl
  | cons x xs ih =>
      intro b c h1 h2
      cases b with
      | nil =>
          rw [bytesLt_nil_right] at h1
          exact absurd h1 (by simp)
      | cons y ys =>
          cases c with
          | nil =>
              rw [bytesLt_nil_right] at h2
              exact absurd h2 (by simp)
          | cons z zs =>
              rw [bytesLt] at h1 h2 ⊢
              by_cases hxy : x < y
              · by_cases hyz : y < z
                · rw [if_pos (by omega : x < z)]
                · rw [if_neg hyz] at h2
                  by_cases hzy : z < y
                  · rw [if_pos hzy] at h2
                    exact absurd h2 (by simp)
                  · have he : y = z := by omega
                    subst he
                    rw [if_pos hxy]
              · rw [if_neg hxy] at h1
                by_cases hyx : y < x
                · rw [if_pos hyx] at h1
                  exact absurd h1 (by simp)
                · rw [if_neg hyx] at h1
                  have he : x = y := by omega
                  subst he
                  by_cases hxz : x < z
                  · rw [if_pos hxz]
                  · rw [if_neg hxz] at h2 ⊢
                    by_cases hzx : z < x
                    · rw [if_pos hzx] at h2
                      exact absurd h2 (by simp)
                    · rw [if_neg hzx] at h2 ⊢
                      exact ih ys zs h1 h2

theorem bytesLt_connex : ∀ a b : List Nat,
    bytesLt a b = false → bytesLt b a = false → a = b := by
  intro a
  induction a with
  | nil =>
      intro b h1 _
      cases b with
      | nil => rfl
      | cons y ys =>
          rw [bytesLt] at h1
          exact absurd h1 (by simp)
  | cons x xs ih =>
      intro b h1 h2
      cases b with
      | nil =>
          rw [bytesLt] at h2
          exact absurd h2 (by simp)
      | cons y ys =>
          rw [bytesLt] at h1 h2
          by_cases hxy : x < y
          · rw [if_pos hxy] at h1
            exact absurd h1 (by simp)
          · by_cases hyx : y < x
            · rw [if_pos hyx] at h2
              exact absurd h2 (by simp)
            · have he : x = y := by omega
              subst he
              rw [if_neg hxy, if_neg hxy] at h1 h2
              rw [ih ys h1 h2]

/-- The strict path order used to identify sorted file lists. -/
theorem sortFiles_perm (files : List HFile) : (sortFiles files).Perm files :=
  List.perm_insertionSort _ files

theorem fileLe_total (f g : HFile) : fileLe f g = true ∨ fileLe g f = true := by
  rw [fileLe, fileLe, bytesLe, bytesLe]
  by_cases h1 : bytesLt g.path f.path
  · by_cases h2 : bytesLt f.path g.path
    · exact absurd (bytesLt_asymm _ _ h2 h1) not_false
    · right
      simp [h2]
  · left
    simp [h1]

theorem fileLe_trans {f g h : HFile} (h1 : fileLe f g = true) (h2 : fileLe g h = true) :
    fileLe f h = true := by
  rw [fileLe, bytesLe] at h1 h2 ⊢
  simp only [Bool.not_eq_true'] at h1 h2 ⊢
  by_cases hlt : bytesLt h.path f.path
  · by_cases hfg : bytesLt f.path g.path
    · have := bytesLt_trans _ _ _ hlt hfg
      rw [this] at h2
      exact absurd h2 (by simp)
    · have hfg' : f.path = g.path := bytesLt_connex _ _ (Bool.eq_false_iff.2 hfg) h1
      rw [← hfg'] at h2
      exact absurd h2 (by simp [hlt])
  · simpa using hlt

theorem sortFiles_sorted (files : List HFile) :
    (sortFiles files).Pairwise (fun f g => fileLe f g = true) := by
  haveI : IsTotal HFile (fun f g => fileLe f g = true) := ⟨fileLe_total⟩
  haveI : IsTrans HFile (fun f g => fileLe f g = true) := ⟨fun _ _ _ => fileLe_trans⟩
  exact List.sorted_insertionSort _ files

theorem hashDir_order_invariant (l1 l2 : List HFile) (hp : l1.Perm l2)
    (hnd : (l1.map HFile.path).Nodup) :
    hashDirEncoding l1 = hashDirEncoding l2 := by
  have hperm : (sortFiles l1).Perm (sortFiles l2) :=
    (sortFiles_perm l1).trans (hp.trans (sortFiles_perm l2).symm)
  have hnd1 : ((sortFiles l1).map HFile.path).Nodup :=
    (((sortFiles_perm l1).map HFile.path).nodup_iff).2 hnd
  have hnd2 : ((sortFiles l2).map HFile.path).Nodup :=
    ((hperm.map HFile.path).nodup_iff).1 hnd1
  have hstrict : ∀ (l : List HFile), (l.map HFile.path).Nodup →
      l.Pairwise (fun f g => fileLe f g = true) →
      l.Pairwise (fun f g => bytesLt f.path g.path = true) := by
    intro l hnd hs
    have hne : l.Pairwise (fun f g => f.path ≠ g.path) :=
      List.pairwise_map.1 hnd
    exact (hs.and hne).imp (by
      rintro f g ⟨hle, hpne⟩
      rw [fileLe, bytesLe, Bool.not_eq_true'] at hle
      by_cases hfg : bytesLt f.path g.path = true
      · exact hfg
      · exact absurd (bytesLt_connex _ _ (Bool.eq_false_iff.2 hfg) hle) hpne)
  have h1 := hstrict _ hnd1 (sortFiles_sorted l1)
  have h2 := hstrict _ hnd2 (sortFiles_sorted l2)
  haveI : IsAntisymm HFile (fun f g => bytesLt f.path g.path = true) :=
    ⟨fun f g hf hg => absurd (bytesLt_asymm _ _ hf hg) not_false⟩
  rw [hashDirEncoding, hashDirEncoding,
    List.eq_of_perm_of_sorted hperm h1 h2]

theorem nulSplit : ∀ (p1 p2 r1 r2 : List Nat), 0 ∉ p1 → 0 ∉ p2 →
    p1 ++ 0 :: r1 = p2 ++ 0 :: r2 → p1 = p2 ∧ r1 = r2
  | [], [], r1, r2, _, _, h => by simpa using h
  | [], b :: bs, r1, r2, _, h2, h => by
      simp only [List.nil_append, List.cons_append, List.cons.injEq] at h
      rw [← h.1] at h2
      exact absurd (List.mem_cons_self 0 bs) h2
  | a :: as, [], r1, r2, h1, _, h => by
      simp only [List.nil_append, List.cons_append, List.cons.injEq] at h
      rw [h.1] at h1
      exact absurd (List.mem_cons_self 0 as) h1
  | a :: as, b :: bs, r1, r2, h1, h2, h => by
      simp only [List.cons_append, List.cons.injEq] at h
      obtain ⟨hab, hrest⟩ := h
      have := nulSplit as bs r1 r2 (fun hm => h1 (List.mem_cons_of_mem a hm))
        (fun hm => h2 (List.mem_cons_of_mem b hm)) hrest
      exact ⟨by rw [hab, this.1], this.2⟩

theorem contentBytes_nul_free {f : HFile} (hv : validHFile f) :
    (0 : Nat) ∉ contentBytes f := by
  rcases f with ⟨p, c | u⟩
  · exact hv.2.1
  · show (0 : Nat) ∉ UNREADABLE
    decide

theorem content_eq_of_bytes {f g : HFile} (hf : validHFile f) (hg : validHFile g)
    (h : contentBytes f = contentBytes g) : f.content = g.content := by
  rcases f with ⟨p, c | u⟩ <;> rcases g with ⟨p', c' | u'⟩
  · simp only [contentBytes] at h
    simp [h]
  · simp only [contentBytes] at h
    exact absurd h hf.2.2
  · simp only [contentBytes] at h
    exact absurd h.symm hg.2.2
  · rfl

theorem flatMap_hRecord_inj : ∀ (l1 l2 : List HFile),
    (∀ f ∈ l1, validHFile f) → (∀ f ∈ l2, validHFile f) →
    l1.flatMap hRecord = l2.flatMap hRecord → l1 = l2
  | [], [], _, _, _ => rfl
  | [], f :: t, _, _, h => by
      rw [List.flatMap_nil, List.flatMap_cons, hRecord] at h
      rcases hp : f.path with _ | ⟨a, as⟩ <;> simp [hp] at h
  | f :: t, [], _, _, h => by
      rw [List.flatMap_nil, List.flatMap_cons, hRecord] at h
      rcases hp : f.path with _ | ⟨a, as⟩ <;> simp [hp] at h
  | f1 :: t1, f2 :: t2, hv1, hv2, h => by
      have hv1f := hv1 f1 (List.mem_cons_self f1 t1)
      have hv2f := hv2 f2 (List.mem_cons_self f2 t2)
      have hshape : ∀ (g : HFile) (t : List HFile),
          (g :: t).flatMap hRecord =
            g.path ++ 0 :: (contentBytes g ++ 0 :: t.flatMap hRecord) := by
        intro g t
        rw [List.flatMap_cons, hRecord]
        simp [List.append_assoc]
      rw [hshape, hshape] at h
      obtain ⟨hpath, hrest⟩ := nulSplit _ _ _ _ hv1f.1 hv2f.1 h
      obtain ⟨hcb, htail⟩ := nulSplit _ _ _ _ (contentBytes_nul_free hv1f)
        (contentBytes_nul_free hv2f) hrest
      have hfe : f1 = f2 := by
        rcases f1 with ⟨p1, c1⟩
        rcases f2 with ⟨p2, c2⟩
        have hc := content_eq_of_bytes hv1f hv2f hcb
        simp only at hpath hc
        rw [hpath, hc]
      rw [hfe, flatMap_hRecord_inj t1 t2
        (fun g hg => hv1 g (List.mem_cons_of_mem f1 hg))
        (fun g hg => hv2 g (List.mem_cons_of_mem f2 hg)) htail]

/-- C6 counterexample: the record separators do not make the encoding
injective, because file contents may themselves contain NUL bytes.  The
one-file bundle `{a ↦ 78 00 79 00}` and the two-file bundle
`{a ↦ 78, y ↦ ε}` have the same encoding — so the same SHA-256 bundle
hash — although file `a`'s byte content differs, refuting "the hash
changes if any file's byte content changes". -/
theorem c6_hash_counterexample :
    hashDirEncoding [⟨[97], .inl [120, 0, 121, 0]⟩] =
      hashDirEncoding [⟨[97], .inl [120]⟩, ⟨[121], .inl []⟩] ∧
    sortFiles [⟨[97], .inl [120, 0, 121, 0]⟩] ≠
      sortFiles [⟨[97], .inl [120]⟩, ⟨[121], .inl []⟩] := by
  constructor
  · rfl
  · decide

/-- C6 amended: the bundle hash is invariant to the enumeration order of
the (distinct-path) files, and the pre-digest encoding is injective up to
file order PROVIDED no file content contains a NUL byte and no readable
content equals the literal `<UNREADABLE>` marker; without that proviso
distinct bundles can collide (see the counterexample). -/
theorem c6_hash_amended :
    (∀ (l1 l2 : List HFile), l1.Perm l2 → (l1.map HFile.path).Nodup →
      hashDirEncoding l1 = hashDirEncoding l2) ∧
    (∀ (l1 l2 : List HFile), (∀ f ∈ l1, validHFile f) → (∀ f ∈ l2, validHFile f) →
      hashDirEncoding l1 = hashDirEncoding l2 → sortFiles l1 = sortFiles l2) := by
  refine ⟨hashDir_order_invariant, fun l1 l2 hv1 hv2 h => ?_⟩
  exact flatMap_hRecord_inj (sortFiles l1) (sortFiles l2)
    (fun f hf => hv1 f ((sortFiles_perm l1).mem_iff.1 hf))
    (fun f hf => hv2 f ((sortFiles_perm l2).mem_iff.1 hf)) h

/-- Witness for the C6 amended theorem on concrete two-file bundles. -/
theorem c6_hash_amended_witness :
    hashDirEncoding [⟨[97], Sum.inl [120]⟩, ⟨[98], Sum.inl [121]⟩] =
      hashDirEncoding [⟨[98], Sum.inl [121]⟩, ⟨[97], Sum.inl [120]⟩] ∧
    sortFiles [⟨[97], Sum.inl [120]⟩] = sortFiles [⟨[97], Sum.inl [120]⟩] := by
  constructor
  · exact c6_hash_amended.1 _ _ (List.Perm.swap _ _ _) (by decide)
  · refine c6_hash_amended.2 _ _ ?_ ?_ rfl <;>
      · intro f hf
        rw [List.mem_singleton] at hf
        subst hf
        exact ⟨by decide, by decide, by decide⟩

/-! ## Transition-engine lemmas -/

theorem Roots.get_set_self (fs : Roots) (r : RootK) (l : List String) :
    (fs.set r l).get r = l := by
  cases r <;> rfl

theorem Roots.get_set_other (fs : Roots) {r r' : RootK} (h : r' ≠ r)
    (l : List String) : (fs.set r l).get r' = fs.get r' := by
  cases r <;> cases r' <;> first | rfl | exact absurd rfl h

theorem Roots.get_add_self (fs : Roots) (r : RootK) (sid : String) :
    (fs.add r sid).get r = sid :: fs.get r := by
  rw [Roots.add, Roots.get_set_self]

theorem Roots.get_add_other (fs : Roots) {r r' : RootK} (h : r' ≠ r)
    (sid : String) : (fs.add r sid).get r' = fs.get r' := by
  rw [Roots.add, Roots.get_set_other fs h]

theorem Roots.get_remove_self (fs : Roots) (r : RootK) (sid : String) :
    (fs.remove r sid).get r = (fs.get r).filter (fun x => x ≠ sid) := by
  rw [Roots.remove, Roots.get_set_self]

theorem Roots.get_remove_other (fs : Roots) {r r' : RootK} (h : r' ≠ r)
    (sid : String) : (fs.remove r sid).get r' = fs.get r' := by
  rw [Roots.remove, Roots.get_set_other fs h]

theorem Roots.get_addBackup (fs : Roots) (b : String) (r : RootK) :
    (fs.addBackup b).get r = fs.get r := by
  cases r <;> rfl

theorem Roots.backups_set (fs : Roots) (r : RootK) (l : List String) :
    (fs.set r l).backups = fs.backups := by
  cases r <;> rfl

theorem Roots.backups_add (fs : Roots) (r : RootK) (sid : String) :
    (fs.add r sid).backups = fs.backups := by
  rw [Roots.add, Roots.backups_set]

theorem Roots.backups_remove (fs : Roots) (r : RootK) (sid : String) :
    (fs.remove r sid).backups = fs.backups := by
  rw [Roots.remove, Roots.backups_set]

theorem Roots.backups_addBackup (fs : Roots) (b : String) :
    (fs.addBackup b).backups = b :: fs.backups := rfl

/-- What a successful `_copy_skill_dir` does to the roots: the destination
root now holds `sid` (plus whatever else it held), every other root is
untouched. -/
theorem copySkillDir_ok {clock : Nat → String} {fs : Roots} {t : Nat}
    {dst : RootK} {sid : String} {fs' : Roots} {t' : Nat}
    (hc : copySkillDir clock fs t dst sid = .ok (fs', t')) :
    (∀ x, x ∈ fs'.get dst ↔ x = sid ∨ x ∈ fs.get dst) ∧
    (∀ r, r ≠ dst → fs'.get r = fs.get r) := by
  rw [copySkillDir] at hc
  by_cases h1 : sid ∈ fs.get dst
  · rw [if_pos h1] at hc
    by_cases h2 : (sid ++ "_" ++ clock t) ∈ fs.backups
    · rw [if_pos h2] at hc
      exact absurd hc (by simp)
    · rw [if_neg h2] at hc
      simp only [Except.ok.injEq, Prod.mk.injEq] at hc
      obtain ⟨h3, _⟩ := hc
      subst h3
      constructor
      · intro x
        rw [Roots.get_add_self, Roots.get_addBackup, Roots.get_remove_self]
        by_cases hx : x = sid <;> simp [hx]
      · intro r hr
        rw [Roots.get_add_other _ hr, Roots.get_addBackup,
          Roots.get_remove_other _ hr]
  · rw [if_neg h1] at hc
    simp only [Except.ok.injEq, Prod.mk.injEq] at hc
    obtain ⟨h3, _⟩ := hc
    subst h3
    constructor
    · intro x
      rw [Roots.get_add_self, List.mem_cons]
    · intro r hr
      rw [Roots.get_add_other _ hr]

/-- A successful copy over an existing destination records a backup named
with the current timestamp. -/
theorem copySkillDir_backup_created {clock : Nat → String} {fs : Roots}
    {t : Nat} {dst : RootK} {sid : String} {fs' : Roots} {t' : Nat}
    (hm : sid ∈ fs.get dst)
    (hc : copySkillDir clock fs t dst sid = .ok (fs', t')) :
    (sid ++ "_" ++ clock t) ∈ fs'.backups := by
  rw [copySkillDir, if_pos hm] at hc
  by_cases h2 : (sid ++ "_" ++ clock t) ∈ fs.backups
  · rw [if_pos h2] at hc
    exact absurd hc (by simp)
  · rw [if_neg h2] at hc
    simp only [Except.ok.injEq, Prod.mk.injEq] at hc
    obtain ⟨h3, _⟩ := hc
    subst h3
    rw [Roots.backups_add, Roots.backups_addBackup]
    exact List.mem_cons_self _ _

/-- A same-second backup collision makes `_copy_skill_dir` raise. -/
theorem copySkillDir_collision {clock : Nat → String} {fs : Roots} {t : Nat}
    {dst : RootK} {sid : String} (hm : sid ∈ fs.get dst)
    (hb : (sid ++ "_" ++ clock t) ∈ fs.backups) :
    copySkillDir clock fs t dst sid =
      .error ("backup exists: " ++ (sid ++ "_" ++ clock t)) := by
  rw [copySkillDir, if_pos hm, if_pos hb]

/-- Same for `_move_skill_dir` (via `_backup_and_remove`): an existing
destination is backed up first, and a backup collision raises. -/
theorem moveSkillDir_collision {clock : Nat → String} {fs : Roots} {t : Nat}
    {srcR dstR : RootK} {sid : String} (hs : sid ∈ fs.get srcR)
    (hm : sid ∈ fs.get dstR) (hb : (sid ++ "_" ++ clock t) ∈ fs.backups) :
    moveSkillDir clock fs t srcR dstR sid =
      .error ("backup exists: " ++ (sid ++ "_" ++ clock t)) := by
  rw [moveSkillDir, if_pos hs, if_pos hm, backupAndRemove, if_pos hm, if_pos hb]

theorem backupAndRemove_ok {clock : Nat → String} {fs : Roots} {t : Nat}
    {r : RootK} {sid : String} {fs' : Roots} {t' : Nat}
    (hc : backupAndRemove clock fs t r sid = .ok (fs', t')) :
    (∀ x, x ∈ fs'.get r ↔ x ∈ fs.get r ∧ x ≠ sid) ∧
    (∀ r'', r'' ≠ r → fs'.get r'' = fs.get r'') := by
  rw [backupAndRemove] at hc
  by_cases h1 : sid ∈ fs.get r
  · rw [if_pos h1] at hc
    by_cases h2 : (sid ++ "_" ++ clock t) ∈ fs.backups
    · rw [if_pos h2] at hc
      exact absurd hc (by simp)
    · rw [if_neg h2] at hc
      simp only [Except.ok.injEq, Prod.mk.injEq] at hc
      obtain ⟨h3, _⟩ := hc
      subst h3
      constructor
      · intro x
        rw [Roots.get_addBackup, Roots.get_remove_self]
        simp
      · intro r'' hr
        rw [Roots.get_addBackup, Roots.get_remove_other _ hr]
  · rw [if_neg h1] at hc
    simp only [Except.ok.injEq, Prod.mk.injEq] at hc
    obtain ⟨h3, _⟩ := hc
    subst h3
    constructor
    · intro x
      by_cases hx : x = sid
      · subst hx
        simp [h1]
      · simp [hx]
    · intro r'' _
      rfl

theorem writePlaceholder_ok {clock : Nat → String} {fs : Roots} {t : Nat}
    {sid : String} {fs' : Roots} {t' : Nat}
    (hc : writePlaceholder clock fs t sid = .ok (fs', t')) :
    (∀ x, x ∈ fs'.get .active ↔ x = sid ∨ x ∈ fs.get .active) ∧
    (∀ r, r ≠ RootK.active → fs'.get r = fs.get r) := by
  rw [writePlaceholder] at hc
  rcases hb : backupAndRemove clock fs t .active sid with e | p
  · rw [hb] at hc
    exact absurd hc (by simp)
  · rw [hb] at hc
    simp only [Except.ok.injEq, Prod.mk.injEq] at hc
    obtain ⟨h3, _⟩ := hc
    subst h3
    obtain ⟨hmem, hother⟩ := backupAndRemove_ok hb
    constructor
    · intro x
      rw [Roots.get_add_self, List.mem_cons, hmem x]
      by_cases hx : x = sid <;> simp [hx]
    · intro r hr
      rw [Roots.get_add_other _ hr, hother r hr]

/-! ## Weekly-sync loop lemmas -/

theorem deniedStep_scanned {env : SyncEnv} {args : SyncArgs} {st : LoopSt}
    {sid : String} {st' : LoopSt} (h : deniedStep env args st sid = .ok st') :
    st'.scanned = st.scanned ∧ st'.summary = st.summary ∧
    st'.actions = st.actions := by
  unfold deniedStep at h
  split at h
  · split at h
    · exact Except.noConfusion h
    · injection h with h
      subst h
      exact ⟨rfl, rfl, rfl⟩
  · injection h with h
    subst h
    exact ⟨rfl, rfl, rfl⟩

theorem deniedStep_frame {env : SyncEnv} {args : SyncArgs} {st : LoopSt}
    {sid' : String} {st' : LoopSt} (h : deniedStep env args st sid' = .ok st')
    {sid : String} (hne : sid ≠ sid') :
    (∀ r, sid ∈ st'.fs.get r ↔ sid ∈ st.fs.get r) ∧
    dictGet sid st'.state.skills = dictGet sid st.state.skills := by
  unfold deniedStep at h
  split at h
  · rcases hc : copySkillDir env.clock st.fs st.tick .quarantine sid' with e | p
    · rw [hc] at h
      exact Except.noConfusion h
    · rw [hc] at h
      injection h with h
      subst h
      obtain ⟨hdst, hoth⟩ := copySkillDir_ok hc
      refine ⟨?_, ?_⟩
      · intro r
        by_cases hr : r = RootK.quarantine
        · subst hr
          rw [hdst sid]
          simp [hne]
        · rw [hoth r hr]
      · exact dictGet_set_other (Ne.symm hne) _ _
  · injection h with h
    subst h
    exact ⟨fun _ => Iff.rfl, rfl⟩

theorem deniedStep_quar_mono {env : SyncEnv} {args : SyncArgs} {st : LoopSt}
    {sid' : String} {st' : LoopSt} (h : deniedStep env args st sid' = .ok st')
    {sid : String} (hq : sid ∈ st.fs.get .quarantine) :
    sid ∈ st'.fs.get .quarantine := by
  unfold deniedStep at h
  split at h
  · rcases hc : copySkillDir env.clock st.fs st.tick .quarantine sid' with e | p
    · rw [hc] at h
      exact Except.noConfusion h
    · rw [hc] at h
      injection h with h
      subst h
      exact ((copySkillDir_ok hc).1 sid).2 (Or.inr hq)
  · injection h with h
    subst h
    exact hq

theorem deniedStep_est {env : SyncEnv} {args : SyncArgs} {st : LoopSt}
    {sid : String} {st' : LoopSt} (hsrc : sid ∈ env.sourceIds)
    (hdry : args.dryRun = false) (h : deniedStep env args st sid = .ok st') :
    sid ∈ st'.fs.get .quarantine ∧
    ∃ ts, dictGet sid st'.state.skills =
      some (.record (some (env.srcHash sid)) "danger" "quarantine_policy" ts) := by
  unfold deniedStep at h
  rw [if_pos ⟨hsrc, hdry⟩] at h
  rcases hc : copySkillDir env.clock st.fs st.tick .quarantine sid with e | p
  · rw [hc] at h
    exact Except.noConfusion h
  · rw [hc] at h
    injection h with h
    subst h
    refine ⟨((copySkillDir_ok hc).1 sid).2 (Or.inl rfl), env.clock p.2, ?_⟩
    exact dictGet_set_self _ _ _

theorem deniedStep_dry {env : SyncEnv} {args : SyncArgs} (st : LoopSt)
    (sid : String) (hdry : args.dryRun = true) :
    deniedStep env args st sid = .ok st := by
  unfold deniedStep
  rw [if_neg]
  rintro ⟨-, hd⟩
  rw [hdry] at hd
  exact Bool.noConfusion hd

theorem copySkillDir_frame_mem {clock : Nat → String} {fs : Roots} {t : Nat}
    {dst : RootK} {sid' : String} {fs' : Roots} {t' : Nat}
    (hc : copySkillDir clock fs t dst sid' = .ok (fs', t')) {sid : String}
    (hne : sid ≠ sid') : ∀ r, sid ∈ fs'.get r ↔ sid ∈ fs.get r := by
  obtain ⟨hdst, hoth⟩ := copySkillDir_ok hc
  intro r
  by_cases hr : r = dst
  · subst hr
    rw [hdst sid]
    simp [hne]
  · rw [hoth r hr]

theorem copySkillDir_quar_mono {clock : Nat → String} {fs : Roots} {t : Nat}
    {dst : RootK} {sid' : String} {fs' : Roots} {t' : Nat}
    (hc : copySkillDir clock fs t dst sid' = .ok (fs', t')) {sid : String}
    (hq : sid ∈ fs.get .quarantine) : sid ∈ fs'.get .quarantine := by
  obtain ⟨hdst, hoth⟩ := copySkillDir_ok hc
  by_cases hr : RootK.quarantine = dst
  · rw [← hr] at hdst
    exact (hdst sid).2 (Or.inr hq)
  · rw [hoth _ hr]
    exact hq

theorem backupAndRemove_frame_mem {clock : Nat → String} {fs : Roots} {t : Nat}
    {r0 : RootK} {sid' : String} {fs' : Roots} {t' : Nat}
    (hb : backupAndRemove clock fs t r0 sid' = .ok (fs', t')) {sid : String}
    (hne : sid ≠ sid') : ∀ r, sid ∈ fs'.get r ↔ sid ∈ fs.get r := by
  obtain ⟨hrem, hoth⟩ := backupAndRemove_ok hb
  intro r
  by_cases hr : r = r0
  · subst hr
    rw [hrem sid]
    simp [hne]
  · rw [hoth r hr]

theorem backupAndRemove_quar_mono {clock : Nat → String} {fs : Roots} {t : Nat}
    {r0 : RootK} {sid' : String} {fs' : Roots} {t' : Nat}
    (hb : backupAndRemove clock fs t r0 sid' = .ok (fs', t'))
    (hr0 : r0 ≠ RootK.quarantine) {sid : String}
    (hq : sid ∈ fs.get .quarantine) : sid ∈ fs'.get .quarantine := by
  obtain ⟨_, hoth⟩ := backupAndRemove_ok hb
  rw [hoth _ (Ne.symm hr0)]
  exact hq

theorem writePlaceholder_frame_mem {clock : Nat → String} {fs : Roots} {t : Nat}
    {sid' : String} {fs' : Roots} {t' : Nat}
    (hw : writePlaceholder clock fs t sid' = .ok (fs', t')) {sid : String}
    (hne : sid ≠ sid') : ∀ r, sid ∈ fs'.get r ↔ sid ∈ fs.get r := by
  obtain ⟨hact, hoth⟩ := writePlaceholder_ok hw
  intro r
  by_cases hr : r = RootK.active
  · subst hr
    rw [hact sid]
    simp [hne]
  · rw [hoth r hr]

theorem writePlaceholder_quar_mono {clock : Nat → String} {fs : Roots} {t : Nat}
    {sid' : String} {fs' : Roots} {t' : Nat}
    (hw : writePlaceholder clock fs t sid' = .ok (fs', t')) {sid : String}
    (hq : sid ∈ fs.get .quarantine) : sid ∈ fs'.get .quarantine := by
  obtain ⟨_, hoth⟩ := writePlaceholder_ok hw
  rw [hoth _ (by rintro ⟨⟩)]
  exact hq

/-- Everything one successful `filtered` iteration guarantees: which ids
were handed to the scanner, how the summary advanced, that other bundles'
root placement and state records are untouched, and that quarantine
membership never shrinks. -/
theorem filteredStep_main {env : SyncEnv} {args : SyncArgs} {st : LoopSt}
    {sid' : String} {st' : LoopSt} (h : filteredStep env args st sid' = .ok st') :
    (∀ y, y ∈ st'.scanned → y ∈ st.scanned ∨ y = sid') ∧
    st'.summary = sumDelta env sid' st.summary ∧
    (∀ sid, sid ≠ sid' →
      (∀ r, sid ∈ st'.fs.get r ↔ sid ∈ st.fs.get r) ∧
      dictGet sid st'.state.skills = dictGet sid st.state.skills ∧
      (sid ∈ st'.scanned ↔ sid ∈ st.scanned)) ∧
    (∀ sid, sid ∈ st.fs.get .quarantine → sid ∈ st'.fs.get .quarantine) := by
  simp only [filteredStep] at h
  by_cases hsrc : sid' ∈ env.sourceIds
  case neg =>
    rw [if_pos hsrc] at h
    injection h with h
    subst h
    exact ⟨fun y hy => Or.inl hy, by simp [sumDelta, hsrc],
      fun sid _ => ⟨fun _ => Iff.rfl, rfl, Iff.rfl⟩, fun _ hq => hq⟩
  case pos =>
    rw [if_neg (not_not_intro hsrc)] at h
    have hscan : ∀ y, y ∈ st.scanned ++ [sid'] → y ∈ st.scanned ∨ y = sid' := by
      intro y hy
      rcases List.mem_append.1 hy with hy | hy
      · exact Or.inl hy
      · exact Or.inr (List.mem_singleton.1 hy)
    have hscanIff : ∀ sid, sid ≠ sid' → (sid ∈ st.scanned ++ [sid'] ↔ sid ∈ st.scanned) := by
      intro sid hne
      simp [hne]
    rcases hstt : (env.scan sid').status with _ | _ | _ | _
    case clean =>
      rw [hstt] at h
      simp only [] at h
      by_cases hdry : args.dryRun = true
      · rw [if_pos hdry] at h
        injection h with h
        subst h
        exact ⟨hscan, by simp [sumDelta, hsrc, hstt],
          fun sid hne => ⟨fun _ => Iff.rfl, rfl, hscanIff sid hne⟩, fun _ hq => hq⟩
      · rw [if_neg hdry] at h
        rcases hc : copySkillDir env.clock st.fs st.tick .active sid' with e | p
        · rw [hc] at h
          exact Except.noConfusion h
        · rw [hc] at h
          simp only [] at h
          rcases hb : backupAndRemove env.clock p.1 p.2 .inactive sid' with e | q
          · rw [hb] at h
            exact Except.noConfusion h
          · rw [hb] at h
            simp only [] at h
            injection h with h
            subst h
            refine ⟨hscan, by simp [sumDelta, hsrc, hstt], fun sid hne => ?_, fun sid hq => ?_⟩
            · exact ⟨fun r => (backupAndRemove_frame_mem hb hne r).trans
                  (copySkillDir_frame_mem hc hne r),
                dictGet_set_other (Ne.symm hne) _ _, hscanIff sid hne⟩
            · exact backupAndRemove_quar_mono hb (by rintro ⟨⟩)
                (copySkillDir_quar_mono hc hq)
    case warning =>
      rw [hstt] at h
      simp only [] at h
      by_cases hdry : args.dryRun = true
      · rw [if_pos hdry] at h
        injection h with h
        subst h
        exact ⟨hscan, by simp [sumDelta, hsrc, hstt],
          fun sid hne => ⟨fun _ => Iff.rfl, rfl, hscanIff sid hne⟩, fun _ hq => hq⟩
      · rw [if_neg hdry] at h
        rcases hc : copySkillDir env.clock st.fs st.tick .inactive sid' with e | p
        · rw [hc] at h
          exact Except.noConfusion h
        · rw [hc] at h
          simp only [] at h
          by_cases hnp : args.noPlaceholderWarnings = false
          · rw [if_pos hnp] at h
            rcases hw : writePlaceholder env.clock p.1 p.2 sid' with e | q
            · rw [hw] at h
              exact Except.noConfusion h
            · rw [hw] at h
              simp only [] at h
              injection h with h
              subst h
              refine ⟨hscan, by simp [sumDelta, hsrc, hstt], fun sid hne => ?_, fun sid hq => ?_⟩
              · exact ⟨fun r => (writePlaceholder_frame_mem hw hne r).trans
                    (copySkillDir_frame_mem hc hne r),
                  dictGet_set_other (Ne.symm hne) _ _, hscanIff sid hne⟩
              · exact writePlaceholder_quar_mono hw (copySkillDir_quar_mono hc hq)
          · rw [if_neg hnp] at h
            by_cases haw : args.allowWarnings = true
            · rw [if_pos haw] at h
              rcases hc2 : copySkillDir env.clock p.1 p.2 .active sid' with e | q
              · rw [hc2] at h
                exact Except.noConfusion h
              · rw [hc2] at h
                simp only [] at h
                injection h with h
                subst h
                refine ⟨hscan, by simp [sumDelta, hsrc, hstt], fun sid hne => ?_, fun sid hq => ?_⟩
                · exact ⟨fun r => (copySkillDir_frame_mem hc2 hne r).trans
                      (copySkillDir_frame_mem hc hne r),
                    dictGet_set_other (Ne.symm hne) _ _, hscanIff sid hne⟩
                · exact copySkillDir_quar_mono hc2 (copySkillDir_quar_mono hc hq)
            · rw [if_neg haw] at h
              injection h with h
              subst h
              refine ⟨hscan, by simp [sumDelta, hsrc, hstt], fun sid hne => ?_, fun sid hq => ?_⟩
              · exact ⟨copySkillDir_frame_mem hc hne,
                  dictGet_set_other (Ne.symm hne) _ _, hscanIff sid hne⟩
              · exact copySkillDir_quar_mono hc hq
    case danger =>
      rw [hstt] at h
      simp only [] at h
      by_cases hdry : args.dryRun = true
      · rw [if_pos hdry] at h
        injection h with h
        subst h
        exact ⟨hscan, by simp [sumDelta, hsrc, hstt],
          fun sid hne => ⟨fun _ => Iff.rfl, rfl, hscanIff sid hne⟩, fun _ hq => hq⟩
      · rw [if_neg hdry] at h
        rcases hc : copySkillDir env.clock st.fs st.tick .quarantine sid' with e | p
        · rw [hc] at h
          exact Except.noConfusion h
        · rw [hc] at h
          simp only [] at h
          rcases hb : backupAndRemove env.clock p.1 p.2 .active sid' with e | q
          · rw [hb] at h
            exact Except.noConfusion h
          · rw [hb] at h
            simp only [] at h
            by_cases hpd : args.placeholderDanger = true
            · rw [if_pos ⟨trivial, hpd⟩] at h
              rcases hw : writePlaceholder env.clock q.1 q.2 sid' with e | w
              · rw [hw] at h
                exact Except.noConfusion h
              · rw [hw] at h
                simp only [] at h
                injection h with h
                subst h
                refine ⟨hscan, by simp [sumDelta, hsrc, hstt], fun sid hne => ?_, fun sid hq => ?_⟩
                · exact ⟨fun r => ((writePlaceholder_frame_mem hw hne r).trans
                      (backupAndRemove_frame_mem hb hne r)).trans
                      (copySkillDir_frame_mem hc hne r),
                    dictGet_set_other (Ne.symm hne) _ _, hscanIff sid hne⟩
                · exact writePlaceholder_quar_mono hw
                    (backupAndRemove_quar_mono hb (by rintro ⟨⟩)
                      (copySkillDir_quar_mono hc hq))
            · rw [if_neg (fun hand => hpd hand.2)] at h
              injection h with h
              subst h
              refine ⟨hscan, by simp [sumDelta, hsrc, hstt], fun sid hne => ?_, fun sid hq => ?_⟩
              · exact ⟨fun r => (backupAndRemove_frame_mem hb hne r).trans
                    (copySkillDir_frame_mem hc hne r),
                  dictGet_set_other (Ne.symm hne) _ _, hscanIff sid hne⟩
              · exact backupAndRemove_quar_mono hb (by rintro ⟨⟩)
                  (copySkillDir_quar_mono hc hq)
    case error =>
      rw [hstt] at h
      simp only [] at h
      by_cases hdry : args.dryRun = true
      · rw [if_pos hdry] at h
        injection h with h
        subst h
        exact ⟨hscan, by simp [sumDelta, hsrc, hstt],
          fun sid hne => ⟨fun _ => Iff.rfl, rfl, hscanIff sid hne⟩, fun _ hq => hq⟩
      · rw [if_neg hdry] at h
        rcases hc : copySkillDir env.clock st.fs st.tick .quarantine sid' with e | p
        · rw [hc] at h
          exact Except.noConfusion h
        · rw [hc] at h
          simp only [] at h
          rcases hb : backupAndRemove env.clock p.1 p.2 .active sid' with e | q
          · rw [hb] at h
            exact Except.noConfusion h
          · rw [hb] at h
            simp only [] at h
            rw [if_neg (fun hand => Status.noConfusion hand.1)] at h
            injection h with h
            subst h
            refine ⟨hscan, by simp [sumDelta, hsrc, hstt], fun sid hne => ?_, fun sid hq => ?_⟩
            · exact ⟨fun r => (backupAndRemove_frame_mem hb hne r).trans
                  (copySkillDir_frame_mem hc hne r),
                dictGet_set_other (Ne.symm hne) _ _, hscanIff sid hne⟩
            · exact backupAndRemove_quar_mono hb (by rintro ⟨⟩)
                (copySkillDir_quar_mono hc hq)

/-- A clean candidate of a non-dry run ends in the active root and out of
the inactive root, with an `active` disposition recorded. -/
theorem filteredStep_clean_est {env : SyncEnv} {args : SyncArgs} {st : LoopSt}
    {sid : String} {st' : LoopSt} (hsrc : sid ∈ env.sourceIds)
    (hst : (env.scan sid).status = .clean) (hdry : args.dryRun = false)
    (h : filteredStep env args st sid = .ok st') :
    sid ∈ st'.fs.get .active ∧ sid ∉ st'.fs.get .inactive ∧
    ∃ ts, dictGet sid st'.state.skills =
      some (.record (env.scan sid).skillHash "clean" "active" ts) := by
  simp only [filteredStep] at h
  rw [if_neg (not_not_intro hsrc), hst] at h
  simp only [hdry, Bool.false_eq_true, if_false] at h
  rcases hc : copySkillDir env.clock st.fs st.tick .active sid with e | p
  · rw [hc] at h
    exact Except.noConfusion h
  · rw [hc] at h
    simp only [] at h
    rcases hb : backupAndRemove env.clock p.1 p.2 .inactive sid with e | q
    · rw [hb] at h
      exact Except.noConfusion h
    · rw [hb] at h
      simp only [] at h
      injection h with h
      subst h
      obtain ⟨hdst, _⟩ := copySkillDir_ok hc
      obtain ⟨hrem, hoth2⟩ := backupAndRemove_ok hb
      refine ⟨?_, ?_, env.clock q.2, dictGet_set_self _ _ _⟩
      · show sid ∈ q.1.get .active
        rw [hoth2 .active (by rintro ⟨⟩)]
        exact (hdst sid).2 (Or.inl rfl)
      · show sid ∉ q.1.get .inactive
        intro hmem
        exact ((hrem sid).1 hmem).2 rfl

/-- A danger- or error-status candidate of a non-dry run ends in the
quarantine root; when no danger placeholder is requested it also ends out
of the active root. -/
theorem filteredStep_danger_est {env : SyncEnv} {args : SyncArgs} {st : LoopSt}
    {sid : String} {st' : LoopSt} (hsrc : sid ∈ env.sourceIds)
    (hst : (env.scan sid).status = .danger ∨ (env.scan sid).status = .error)
    (hdry : args.dryRun = false) (h : filteredStep env args st sid = .ok st') :
    sid ∈ st'.fs.get .quarantine ∧
    (args.placeholderDanger = false → sid ∉ st'.fs.get .active) := by
  simp only [filteredStep] at h
  rw [if_neg (not_not_intro hsrc)] at h
  rcases hst with hst | hst <;> rw [hst] at h <;> simp only [] at h <;>
    rw [if_neg (by rw [hdry]; exact Bool.noConfusion)] at h
  case inl =>
    rcases hc : copySkillDir env.clock st.fs st.tick .quarantine sid with e | p
    · rw [hc] at h
      exact Except.noConfusion h
    · rw [hc] at h
      simp only [] at h
      rcases hb : backupAndRemove env.clock p.1 p.2 .active sid with e | q
      · rw [hb] at h
        exact Except.noConfusion h
      · rw [hb] at h
        simp only [] at h
        obtain ⟨hdst, _⟩ := copySkillDir_ok hc
        obtain ⟨hrem, hoth2⟩ := backupAndRemove_ok hb
        by_cases hpd : args.placeholderDanger = true
        · rw [if_pos ⟨trivial, hpd⟩] at h
          rcases hw : writePlaceholder env.clock q.1 q.2 sid with e | w
          · rw [hw] at h
            exact Except.noConfusion h
          · rw [hw] at h
            simp only [] at h
            injection h with h
            subst h
            obtain ⟨_, hwoth⟩ := writePlaceholder_ok hw
            refine ⟨?_, ?_⟩
            · show sid ∈ w.1.get .quarantine
              rw [hwoth .quarantine (by rintro ⟨⟩), hoth2 .quarantine (by rintro ⟨⟩)]
              exact (hdst sid).2 (Or.inl rfl)
            · intro hpd'
              rw [hpd] at hpd'
              exact Bool.noConfusion hpd'
        · rw [if_neg (fun hand => hpd hand.2)] at h
          injection h with h
          subst h
          refine ⟨?_, fun _ hmem => ?_⟩
          · show sid ∈ q.1.get .quarantine
            rw [hoth2 .quarantine (by rintro ⟨⟩)]
            exact (hdst sid).2 (Or.inl rfl)
          · exact ((hrem sid).1 hmem).2 rfl
  case inr =>
    rcases hc : copySkillDir env.clock st.fs st.tick .quarantine sid with e | p
    · rw [hc] at h
      exact Except.noConfusion h
    · rw [hc] at h
      simp only [] at h
      rcases hb : backupAndRemove env.clock p.1 p.2 .active sid with e | q
      · rw [hb] at h
        exact Except.noConfusion h
      · rw [hb] at h
        simp only [] at h
        rw [if_neg (fun hand => Status.noConfusion hand.1)] at h
        injection h with h
        subst h
        obtain ⟨hdst, _⟩ := copySkillDir_ok hc
        obtain ⟨hrem, hoth2⟩ := backupAndRemove_ok hb
        refine ⟨?_, fun _ hmem => ?_⟩
        · show sid ∈ q.1.get .quarantine
          rw [hoth2 .quarantine (by rintro ⟨⟩)]
          exact (hdst sid).2 (Or.inl rfl)
        · exact ((hrem sid).1 hmem).2 rfl

/-- Dry-run iterations always succeed and mutate nothing but the summary,
actions and scan bookkeeping. -/
theorem filteredStep_dry (env : SyncEnv) (args : SyncArgs) (st : LoopSt)
    (sid : String) (hdry : args.dryRun = true) :
    ∃ st', filteredStep env args st sid = .ok st' ∧ st'.fs = st.fs ∧
      st'.state = st.state ∧ st'.tick = st.tick ∧
      st'.summary = sumDelta env sid st.summary := by
  simp only [filteredStep]
  by_cases hsrc : sid ∈ env.sourceIds
  case neg =>
    rw [if_pos hsrc]
    exact ⟨_, rfl, rfl, rfl, rfl, by simp [sumDelta, hsrc]⟩
  case pos =>
    rw [if_neg (not_not_intro hsrc)]
    rcases hstt : (env.scan sid).status with _ | _ | _ | _ <;>
      simp only [] <;> rw [if_pos hdry]
    · exact ⟨_, rfl, rfl, rfl, rfl, by simp [sumDelta, hsrc, hstt]⟩
    · exact ⟨_, rfl, rfl, rfl, rfl, by simp [sumDelta, hsrc, hstt]⟩
    · exact ⟨_, rfl, rfl, rfl, rfl, by simp [sumDelta, hsrc, hstt]⟩
    · exact ⟨_, rfl, rfl, rfl, rfl, by simp [sumDelta, hsrc, hstt]⟩

/-- Summary evolution of one successful denied iteration: none. -/
theorem deniedStep_summary {env : SyncEnv} {args : SyncArgs} {st : LoopSt}
    {sid : String} {st' : LoopSt} (h : deniedStep env args st sid = .ok st') :
    st'.summary = st.summary :=
  (deniedStep_scanned h).2.1

/-! ## Fold lemmas -/

theorem foldE_pres {step : LoopSt → String → Except String LoopSt}
    {P : LoopSt → Prop} :
    ∀ {l : List String} {st st' : LoopSt},
    (∀ s s' x, x ∈ l → step s x = .ok s' → P s → P s') →
    foldE step st l = .ok st' → P st → P st'
  | [], st, st', _, hf, hp => by
      rw [foldE] at hf
      injection hf with hf
      subst hf
      exact hp
  | x :: rest, st, st', hstep, hf, hp => by
      rw [foldE] at hf
      rcases hx : step st x with e | st1
      · rw [hx] at hf
        exact Except.noConfusion hf
      · rw [hx] at hf
        exact foldE_pres
          (fun s s' y hy => hstep s s' y (List.mem_cons_of_mem x hy)) hf
          (hstep st st1 x (List.mem_cons_self x rest) hx hp)

theorem foldE_est {step : LoopSt → String → Except String LoopSt}
    {P : LoopSt → Prop} {sid : String} :
    ∀ {l : List String} {st st' : LoopSt}, sid ∈ l → l.Nodup →
    (∀ s s', step s sid = .ok s' → P s') →
    (∀ s s' x, x ≠ sid → step s x = .ok s' → P s → P s') →
    foldE step st l = .ok st' → P st'
  | [], _, _, hm, _, _, _, _ => absurd hm (List.not_mem_nil sid)
  | x :: rest, st, st', hm, hnd, hest, hpres, hf => by
      rw [foldE] at hf
      rcases hx : step st x with e | st1
      · rw [hx] at hf
        exact Except.noConfusion hf
      · rw [hx] at hf
        by_cases hxs : x = sid
        · have hnot : sid ∉ rest := hxs ▸ (List.nodup_cons.1 hnd).1
          have hx' : step st sid = .ok st1 := hxs ▸ hx
          exact foldE_pres
            (fun s s' y hy hs hp =>
              hpres s s' y (fun he => hnot (he ▸ hy)) hs hp)
            hf (hest st st1 hx')
        · have hm' : sid ∈ rest := by
            rcases List.mem_cons.1 hm with hh | hh
            · exact absurd hh.symm hxs
            · exact hh
          exact foldE_est hm' (List.nodup_cons.1 hnd).2 hest hpres hf

theorem foldE_summary {step : LoopSt → String → Except String LoopSt}
    {g : String → Summary → Summary}
    (hg : ∀ s s' x, step s x = .ok s' → s'.summary = g x s.summary) :
    ∀ {l : List String} {st st' : LoopSt},
    foldE step st l = .ok st' →
    st'.summary = l.foldl (fun acc x => g x acc) st.summary
  | [], st, st', hf => by
      rw [foldE] at hf
      injection hf with hf
      subst hf
      rfl
  | x :: rest, st, st', hf => by
      rw [foldE] at hf
      rcases hx : step st x with e | st1
      · rw [hx] at hf
        exact Except.noConfusion hf
      · rw [hx] at hf
        rw [List.foldl_cons, ← hg st st1 x hx]
        exact foldE_summary hg hf

theorem foldE_denied_dry {env : SyncEnv} {args : SyncArgs}
    (hdry : args.dryRun = true) :
    ∀ (l : List String) (st : LoopSt), foldE (deniedStep env args) st l = .ok st
  | [], st => rfl
  | x :: rest, st => by
      rw [foldE, deniedStep_dry st x hdry]
      exact foldE_denied_dry hdry rest st

theorem foldE_filtered_dry (env : SyncEnv) (args : SyncArgs)
    (hdry : args.dryRun = true) :
    ∀ (l : List String) (st : LoopSt),
    ∃ st', foldE (filteredStep env args) st l = .ok st' ∧ st'.fs = st.fs ∧
      st'.state = st.state ∧
      st'.summary = l.foldl (fun acc x => sumDelta env x acc) st.summary
  | [], st => ⟨st, rfl, rfl, rfl, rfl⟩
  | x :: rest, st => by
      obtain ⟨st1, h1, hfs1, hstate1, htick1, hsum1⟩ :=
        filteredStep_dry env args st x hdry
      obtain ⟨st', h2, hfs2, hstate2, hsum2⟩ := foldE_filtered_dry env args hdry rest st1
      refine ⟨st', ?_, hfs2.trans hfs1, hstate2.trans hstate1, ?_⟩
      · rw [foldE, h1]
        exact h2
      · rw [hsum2, List.foldl_cons, hsum1]

theorem foldE_error_propagates
    (step : LoopSt → String → Except String LoopSt) (st : LoopSt)
    (sid : String) (l : List String) (e : String)
    (h : step st sid = .error e) :
    foldE step st (sid :: l) = .error e := by
  rw [foldE, h]

/-! ## Policy partition lemmas -/

theorem filterPolicy_allowed_sublist (al dl : List String) :
    ∀ l : List String, (filterPolicy al dl l).1.Sublist l
  | [] => List.Sublist.refl _
  | sid :: rest => by
      rw [filterPolicy]
      by_cases hd : sid ∈ dl
      · rw [if_pos hd]
        exact (filterPolicy_allowed_sublist al dl rest).cons sid
      · rw [if_neg hd]
        by_cases ha : al ≠ [] ∧ sid ∉ al
        · rw [if_pos ha]
          exact (filterPolicy_allowed_sublist al dl rest).cons sid
        · rw [if_neg ha]
          exact (filterPolicy_allowed_sublist al dl rest).cons₂ sid

theorem filterPolicy_denied_sublist (al dl : List String) :
    ∀ l : List String, (filterPolicy al dl l).2.1.Sublist l
  | [] => List.Sublist.refl _
  | sid :: rest => by
      rw [filterPolicy]
      by_cases hd : sid ∈ dl
      · rw [if_pos hd]
        exact (filterPolicy_denied_sublist al dl rest).cons₂ sid
      · rw [if_neg hd]
        by_cases ha : al ≠ [] ∧ sid ∉ al
        · rw [if_pos ha]
          exact (filterPolicy_denied_sublist al dl rest).cons sid
        · rw [if_neg ha]
          exact (filterPolicy_denied_sublist al dl rest).cons sid

theorem filterPolicy_allowed_not_denied (al dl : List String) :
    ∀ (l : List String) (x : String), x ∈ (filterPolicy al dl l).1 → x ∉ dl
  | [], x, hm => absurd hm (List.not_mem_nil x)
  | sid :: rest, x, hm => by
      rw [filterPolicy] at hm
      by_cases hd : sid ∈ dl
      · rw [if_pos hd] at hm
        exact filterPolicy_allowed_not_denied al dl rest x hm
      · rw [if_neg hd] at hm
        by_cases ha : al ≠ [] ∧ sid ∉ al
        · rw [if_pos ha] at hm
          exact filterPolicy_allowed_not_denied al dl rest x hm
        · rw [if_neg ha] at hm
          rcases List.mem_cons.1 hm with hh | hh
          · subst hh
            exact hd
          · exact filterPolicy_allowed_not_denied al dl rest x hh

/-- Deny-first: a candidate on the deny list lands in the denied bucket,
allow-listed or not. -/
theorem filterPolicy_denied_mem (al dl : List String) :
    ∀ (l : List String) (x : String), x ∈ l → x ∈ dl →
    x ∈ (filterPolicy al dl l).2.1
  | [], x, hm, _ => absurd hm (List.not_mem_nil x)
  | sid :: rest, x, hm, hd => by
      rw [filterPolicy]
      rcases List.mem_cons.1 hm with hh | hh
      · subst hh
        rw [if_pos hd]
        exact List.mem_cons_self _ _
      · by_cases hds : sid ∈ dl
        · rw [if_pos hds]
          exact List.mem_cons_of_mem _ (filterPolicy_denied_mem al dl rest x hh hd)
        · rw [if_neg hds]
          by_cases ha : al ≠ [] ∧ sid ∉ al
          · rw [if_pos ha]
            exact filterPolicy_denied_mem al dl rest x hh hd
          · rw [if_neg ha]
            exact filterPolicy_denied_mem al dl rest x hh hd

/-! ## Candidate-set lemmas -/

theorem weeklyCandidates_subset_source {env : SyncEnv} {args : SyncArgs}
    {sid : String} (h : sid ∈ weeklyCandidates env args) :
    sid ∈ env.sourceIds := by
  rw [weeklyCandidates] at h
  by_cases hn : args.newOnly <;> simp only [hn, if_true, if_false] at h
  · rw [weeklyNewIds, mem_sortStr, mem_setDiff] at h
    rw [mem_setDiff, mem_setDiff] at h
    exact h.1.1.1
  · rcases List.mem_append.1 h with h | h
    · rw [weeklyNewIds, mem_sortStr, mem_setDiff] at h
      rw [mem_setDiff, mem_setDiff] at h
      exact h.1.1.1
    · rw [weeklyUpdatedIds, List.mem_filter, mem_sortStr] at h
      exact h.1

theorem weeklyCandidates_nodup {env : SyncEnv} {args : SyncArgs}
    (hnd : env.sourceIds.Nodup) : (weeklyCandidates env args).Nodup := by
  have hnew : (weeklyNewIds env.sourceIds env.fs.active env.fs.inactive
      ((loadState env.stateFile).skills.map Prod.fst)).Nodup := by
    rw [weeklyNewIds, sortStr]
    exact (List.perm_insertionSort _ _).nodup_iff.2
      (((hnd.filter _).filter _).filter _)
  have hupd : (weeklyUpdatedIds env.sourceIds
      (loadState env.stateFile).skills env.srcHash).Nodup := by
    rw [weeklyUpdatedIds, sortStr]
    exact ((List.perm_insertionSort _ _).nodup_iff.2 hnd).filter _
  rw [weeklyCandidates]
  by_cases hn : args.newOnly <;> simp only [hn, if_true, if_false]
  · exact hnew
  · refine hnew.append hupd ?_
    intro sid hsidN hsidU
    rw [weeklyNewIds, mem_sortStr, mem_setDiff] at hsidN
    rw [weeklyUpdatedIds, List.mem_filter, mem_sortStr] at hsidU
    rcases hh : stateGetHash (loadState env.stateFile).skills sid with _ | v
    · rw [hh] at hsidU
      simp at hsidU
    · have : dictGet sid (loadState env.stateFile).skills ≠ none := by
        rw [stateGetHash] at hh
        rcases hg : dictGet sid (loadState env.stateFile).skills with _ | w
        · rw [hg] at hh
          exact Option.noConfusion hh
        · exact fun he => Option.noConfusion he
      rw [Ne, dictGet_eq_none] at this
      push_neg at this
      exact hsidN.2 this

theorem weeklyFiltered_nodup {env : SyncEnv} {args : SyncArgs}
    (hnd : env.sourceIds.Nodup) : (weeklyParts env args).1.Nodup :=
  (weeklyCandidates_nodup hnd).sublist
    (filterPolicy_allowed_sublist env.allowlist env.denylist _)

theorem weeklyDenied_nodup {env : SyncEnv} {args : SyncArgs}
    (hnd : env.sourceIds.Nodup) : (weeklyParts env args).2.1.Nodup :=
  (weeklyCandidates_nodup hnd).sublist
    (filterPolicy_denied_sublist env.allowlist env.denylist _)

/-- Deconstruction of a successful run into its two loop passes. -/
theorem weeklySync_ok_elim {env : SyncEnv} {args : SyncArgs} {res : SyncResult}
    (h : weeklySync env args = .ok res) :
    ∃ st1 st2,
      foldE (deniedStep env args) (initSt env args) (weeklyParts env args).2.1 =
        .ok st1 ∧
      foldE (filteredStep env args) st1 (weeklyParts env args).1 = .ok st2 ∧
      res.fs = st2.fs ∧ res.state = st2.state ∧
      res.persistedState = (if args.dryRun then none else some st2.state) ∧
      res.report.summary = st2.summary ∧
      res.verdict = verdictLines st2.summary ∧
      res.scanned = st2.scanned := by
  simp only [weeklySync] at h
  rcases h1 : foldE (deniedStep env args) (initSt env args)
      (weeklyParts env args).2.1 with e | st1
  · rw [h1] at h
    exact Except.noConfusion h
  · rw [h1] at h
    simp only [] at h
    rcases h2 : foldE (filteredStep env args) st1 (weeklyParts env args).1
        with e | st2
    · rw [h2] at h
      exact Except.noConfusion h
    · rw [h2] at h
      simp only [] at h
      injection h with h
      subst h
      exact ⟨st1, st2, rfl, h2, rfl, rfl, rfl, rfl, rfl, rfl⟩

/-! ## C1 -/

/-- C1 counterexample: a completed (non-dry-run) weekly sync after which
the identifier `s` exists in BOTH the active and the quarantine root.
`s` was previously quarantined (state hash `h1`, copy still in the
quarantine root); upstream now ships different content (`h2`) that scans
clean, so the sync copies it into active — but no transition ever removes
the stale quarantine copy. -/
theorem c1_disjoint_roots_counterexample :
    (weeklySync
        ⟨["s"], fun _ => "h2", fun _ => ⟨.clean, [], some "h2"⟩, [], [],
          .parsed ⟨1, [("s", .record (some "h1") "danger" "quarantine" "t0")]⟩,
          ⟨[], [], ["s"], []⟩, fun n => "T" ++ toString n⟩
        ⟨false, false, false, false, false⟩).toOption.map
      (fun r => (r.fs.active.contains "s", r.fs.inactive.contains "s",
        r.fs.quarantine.contains "s")) =
      some (true, false, true) := by
  decide

/-- C1 amended: the Transition Engine removes only specific stale copies —
activating a clean bundle removes its inactive copy, quarantining removes
its active copy — but no transition ever removes a quarantine copy, so
after a completed non-dry-run sync an identifier can exist in two roots
(e.g. active and quarantine) simultaneously.  What does hold: quarantine
membership never shrinks; a clean-scanned filtered candidate ends in
active and out of inactive; a danger/error candidate ends in quarantine
and (when no danger placeholder is written) out of active. -/
theorem c1_roots_amended (env : SyncEnv) (args : SyncArgs) (res : SyncResult)
    (sid : String) (hnd : env.sourceIds.Nodup) (hdry : args.dryRun = false)
    (hrun : weeklySync env args = .ok res) :
    (sid ∈ env.fs.quarantine → sid ∈ res.fs.quarantine) ∧
    (sid ∈ (weeklyParts env args).1 → (env.scan sid).status = .clean →
      sid ∈ res.fs.active ∧ sid ∉ res.fs.inactive) ∧
    (sid ∈ (weeklyParts env args).1 →
      ((env.scan sid).status = .danger ∨ (env.scan sid).status = .error) →
      sid ∈ res.fs.quarantine ∧
      (args.placeholderDanger = false → sid ∉ res.fs.active)) := by
  obtain ⟨st1, st2, h1, h2, hfs, _, _, _, _, _⟩ := weeklySync_ok_elim hrun
  refine ⟨?_, ?_, ?_⟩
  · intro hq
    have hP : sid ∈ st2.fs.get .quarantine := by
      refine foldE_pres (P := fun s => sid ∈ s.fs.get .quarantine) ?_ h2 ?_
      · intro s s' x _ hs hp
        exact (filteredStep_main hs).2.2.2 sid hp
      · refine foldE_pres (P := fun s => sid ∈ s.fs.get .quarantine) ?_ h1 hq
        intro s s' x _ hs hp
        exact deniedStep_quar_mono hs hp
    rw [hfs]
    exact hP
  · intro hmem hclean
    have hsrc : sid ∈ env.sourceIds := weeklyCandidates_subset_source
      ((filterPolicy_allowed_sublist _ _ _).subset hmem)
    have hP : sid ∈ st2.fs.get .active ∧ sid ∉ st2.fs.get .inactive := by
      refine foldE_est
        (P := fun s => sid ∈ s.fs.get .active ∧ sid ∉ s.fs.get .inactive)
        hmem (weeklyFiltered_nodup hnd) ?_ ?_ h2
      · intro s s' hs
        obtain ⟨ha, hi, _⟩ := filteredStep_clean_est hsrc hclean hdry hs
        exact ⟨ha, hi⟩
      · intro s s' x hne hs hp
        obtain ⟨hroots, _, _⟩ := (filteredStep_main hs).2.2.1 sid (Ne.symm hne)
        exact ⟨(hroots .active).2 hp.1, fun hm => hp.2 ((hroots .inactive).1 hm)⟩
    rw [hfs]
    exact hP
  · intro hmem hdng
    have hsrc : sid ∈ env.sourceIds := weeklyCandidates_subset_source
      ((filterPolicy_allowed_sublist _ _ _).subset hmem)
    have hP : sid ∈ st2.fs.get .quarantine ∧
        (args.placeholderDanger = false → sid ∉ st2.fs.get .active) := by
      refine foldE_est
        (P := fun s => sid ∈ s.fs.get .quarantine ∧
          (args.placeholderDanger = false → sid ∉ s.fs.get .active))
        hmem (weeklyFiltered_nodup hnd) ?_ ?_ h2
      · intro s s' hs
        exact filteredStep_danger_est hsrc hdng hdry hs
      · intro s s' x hne hs hp
        obtain ⟨hroots, _, _⟩ := (filteredStep_main hs).2.2.1 sid (Ne.symm hne)
        exact ⟨(hroots .quarantine).2 hp.1,
          fun hpd hm => hp.2 hpd ((hroots .active).1 hm)⟩
    rw [hfs]
    exact hP

/-- Witness for the C1 amended theorem on the concrete scenario `envW1`:
the pre-existing quarantine copy `q0` survives, the clean candidate `c`
ends active and not inactive, the dangerous candidate `d` ends in
quarantine and not active. -/
theorem c1_roots_amended_witness :
    "q0" ∈ resW1.fs.quarantine ∧
    ("c" ∈ resW1.fs.active ∧ "c" ∉ resW1.fs.inactive) ∧
    ("d" ∈ resW1.fs.quarantine ∧ "d" ∉ resW1.fs.active) := by
  have hrun : weeklySync envW1 argsW = .ok resW1 := by rfl
  have h1 := c1_roots_amended envW1 argsW resW1 "q0" (by decide) rfl hrun
  have h2 := c1_roots_amended envW1 argsW resW1 "c" (by decide) rfl hrun
  have h3 := c1_roots_amended envW1 argsW resW1 "d" (by decide) rfl hrun
  refine ⟨h1.1 (by decide), h2.2.1 (by decide) (by decide), ?_⟩
  have hd := h3.2.2 (by decide) (Or.inl (by decide))
  exact ⟨hd.1, hd.2 rfl⟩

/-! ## C3 -/

/-- C3: a deny-listed candidate never reaches the content scanner
(deny-first, even when also allow-listed), and in a completed non-dry run
it is force-quarantined with disposition `quarantine_policy` and the
freshly computed source hash recorded. -/
theorem c3_denylist (env : SyncEnv) (args : SyncArgs) (res : SyncResult)
    (sid : String) (hnd : env.sourceIds.Nodup)
    (hrun : weeklySync env args = .ok res) (hdeny : sid ∈ env.denylist) :
    sid ∉ res.scanned ∧
    (sid ∈ weeklyCandidates env args → sid ∈ (weeklyParts env args).2.1) ∧
    (sid ∈ weeklyCandidates env args → args.dryRun = false →
      sid ∈ res.fs.quarantine ∧
      ∃ ts, dictGet sid res.state.skills =
        some (.record (some (env.srcHash sid)) "danger" "quarantine_policy" ts)) := by
  obtain ⟨st1, st2, h1, h2, hfs, hstate, _, _, _, hscanned⟩ := weeklySync_ok_elim hrun
  have hnotfil : ∀ x ∈ (weeklyParts env args).1, x ≠ sid := by
    intro x hx he
    exact filterPolicy_allowed_not_denied env.allowlist env.denylist _ x hx
      (he ▸ hdeny)
  refine ⟨?_, ?_, ?_⟩
  · have hP : sid ∉ st2.scanned := by
      refine foldE_pres (P := fun s => sid ∉ s.scanned) ?_ h2 ?_
      · intro s s' x hx hs hp hmem
        rcases (filteredStep_main hs).1 sid hmem with hm | hm
        · exact hp hm
        · exact hnotfil x hx hm.symm
      · refine foldE_pres (P := fun s => sid ∉ s.scanned) ?_ h1 ?_
        · intro s s' x _ hs hp
          rw [(deniedStep_scanned hs).1]
          exact hp
        · exact List.not_mem_nil sid
    rw [hscanned]
    exact hP
  · intro hc
    exact filterPolicy_denied_mem env.allowlist env.denylist _ sid hc hdeny
  · intro hc hdry
    have hsrc : sid ∈ env.sourceIds := weeklyCandidates_subset_source hc
    have hdm : sid ∈ (weeklyParts env args).2.1 :=
      filterPolicy_denied_mem env.allowlist env.denylist _ sid hc hdeny
    have hP1 : sid ∈ st1.fs.get .quarantine ∧
        ∃ ts, dictGet sid st1.state.skills =
          some (.record (some (env.srcHash sid)) "danger" "quarantine_policy" ts) := by
      refine foldE_est
        (P := fun s => sid ∈ s.fs.get .quarantine ∧
          ∃ ts, dictGet sid s.state.skills =
            some (.record (some (env.srcHash sid)) "danger" "quarantine_policy" ts))
        hdm (weeklyDenied_nodup hnd) ?_ ?_ h1
      · intro s s' hs
        exact deniedStep_est hsrc hdry hs
      · intro s s' x hne hs hp
        obtain ⟨hroots, hdict⟩ := deniedStep_frame hs (Ne.symm hne)
        exact ⟨(hroots .quarantine).2 hp.1, hdict ▸ hp.2⟩
    have hP2 : sid ∈ st2.fs.get .quarantine ∧
        ∃ ts, dictGet sid st2.state.skills =
          some (.record (some (env.srcHash sid)) "danger" "quarantine_policy" ts) := by
      refine foldE_pres
        (P := fun s => sid ∈ s.fs.get .quarantine ∧
          ∃ ts, dictGet sid s.state.skills =
            some (.record (some (env.srcHash sid)) "danger" "quarantine_policy" ts))
        ?_ h2 hP1
      intro s s' x hx hs hp
      obtain ⟨hroots, hdict, _⟩ :=
        (filteredStep_main hs).2.2.1 sid (fun he => hnotfil x hx he.symm)
      exact ⟨(hroots .quarantine).2 hp.1, hdict ▸ hp.2⟩
    rw [hfs, hstate]
    exact hP2

/-- Witness for the C3 theorem on the concrete scenario `envW3`: the
deny-listed `d` is never scanned, lands in the denied partition, ends in
quarantine, and the state records hash/danger/quarantine_policy for it. -/
theorem c3_denylist_witness :
    "d" ∉ resW3.scanned ∧
    "d" ∈ (weeklyParts envW3 argsW).2.1 ∧
    ("d" ∈ resW3.fs.quarantine ∧
      ∃ ts, dictGet "d" resW3.state.skills =
        some (.record (some (envW3.srcHash "d")) "danger" "quarantine_policy" ts)) := by
  have hrun : weeklySync envW3 argsW = .ok resW3 := by rfl
  have h := c3_denylist envW3 argsW resW3 "d" (by decide) hrun (by decide)
  exact ⟨h.1, h.2.1 (by decide), h.2.2 (by decide) rfl⟩

/-! ## C2 -/

/-- C2 counterexample: over the same inputs, the dry-run report and the
real-run report differ in content — the report records the `dry_run` flag
in its meta block, and dry runs additionally emit per-candidate preview
entries in `details.actions` that real runs do not. -/
theorem c2_dry_report_counterexample :
    ((weeklySync
        ⟨["a"], fun _ => "h", fun _ => ⟨.clean, [], some "h"⟩, [], [],
          .missing, ⟨[], [], [], []⟩, fun n => "T" ++ toString n⟩
        ⟨false, false, false, false, true⟩).toOption.map (fun r => r.report)) ≠
    ((weeklySync
        ⟨["a"], fun _ => "h", fun _ => ⟨.clean, [], some "h"⟩, [], [],
          .missing, ⟨[], [], [], []⟩, fun n => "T" ++ toString n⟩
        ⟨false, false, false, false, false⟩).toOption.map (fun r => r.report)) := by
  decide

/-- C2 amended: a dry run mutates no root and persists no state (in-memory
state also stays as loaded), and produces the same verdict and the same
summary as the real run over the same inputs; but the report/verdict files
are still written, and the full report is NOT identical — its meta block
records the dry-run flag and its `details.actions` carries preview entries
only in dry mode (and wall-clock timestamps differ). -/
theorem c2_dry_run_amended (env : SyncEnv) (args : SyncArgs) (res : SyncResult)
    (hdry : args.dryRun = false) (hrun : weeklySync env args = .ok res) :
    ∃ d, weeklySync env { args with dryRun := true } = .ok d ∧
      d.fs = env.fs ∧ d.state = loadState env.stateFile ∧
      d.persistedState = none ∧
      d.report.summary = res.report.summary ∧ d.verdict = res.verdict := by
  obtain ⟨st1, st2, h1, h2, _, _, _, hsum, hverd, _⟩ := weeklySync_ok_elim hrun
  have hd1 : foldE (deniedStep env { args with dryRun := true })
      (initSt env { args with dryRun := true })
      (weeklyParts env { args with dryRun := true }).2.1 =
      .ok (initSt env { args with dryRun := true }) :=
    foldE_denied_dry rfl _ _
  obtain ⟨d2, hd2, hdfs, hdstate, hdsum⟩ :=
    foldE_filtered_dry env { args with dryRun := true } rfl
      (weeklyParts env { args with dryRun := true }).1
      (initSt env { args with dryRun := true })
  rcases hrun' : weeklySync env { args with dryRun := true } with e | d
  · exfalso
    simp only [weeklySync] at hrun'
    rw [hd1] at hrun'
    simp only [] at hrun'
    rw [hd2] at hrun'
    simp only [] at hrun'
    exact Except.noConfusion hrun'
  · obtain ⟨st1', st2', h1', h2', hdfs', hdstate', hdpers', hdsum', hdverd', _⟩ :=
      weeklySync_ok_elim hrun'
    rw [hd1] at h1'
    injection h1' with h1'
    subst h1'
    rw [hd2] at h2'
    injection h2' with h2'
    subst h2'
    have hsum1 : st1.summary = (initSt env args).summary := by
      refine foldE_pres (P := fun s => s.summary = (initSt env args).summary)
        ?_ h1 rfl
      intro s s' x _ hs hp
      rw [deniedStep_summary hs, hp]
    have hg : ∀ (s s' : LoopSt) (x : String),
        filteredStep env args s x = .ok s' →
        s'.summary = sumDelta env x s.summary :=
      fun _ _ _ hs => (filteredStep_main hs).2.1
    have hsumReal : st2.summary =
        (weeklyParts env args).1.foldl (fun acc x => sumDelta env x acc)
          (initSt env args).summary := by
      rw [foldE_summary hg h2, hsum1]
    have hsummaries : d2.summary = st2.summary := by
      rw [hdsum, hsumReal]
      rfl
    refine ⟨d, rfl, ?_, ?_, ?_, ?_, ?_⟩
    · rw [hdfs', hdfs]
      rfl
    · rw [hdstate', hdstate]
      rfl
    · rw [hdpers']
      rfl
    · rw [hdsum', hsum, hsummaries]
    · rw [hdverd', hverd, hsummaries]

/-- Witness for the C2 amended theorem on the concrete scenario `envW2`:
the dry run over the same inputs succeeds, leaves roots and state
untouched, persists nothing, and matches the real run's report summary
and verdict. -/
theorem c2_dry_run_amended_witness :
    ∃ d, weeklySync envW2 { argsW with dryRun := true } = .ok d ∧
      d.fs = envW2.fs ∧ d.state = loadState envW2.stateFile ∧
      d.persistedState = none ∧
      d.report.summary = resW2.report.summary ∧ d.verdict = resW2.verdict := by
  have hrun : weeklySync envW2 argsW = .ok resW2 := by rfl
  exact c2_dry_run_amended envW2 argsW resW2 rfl hrun

/-! ## C7 -/

/-- C7 counterexample: a backup-name collision during one bundle's
transition aborts the ENTIRE weekly-sync run (uncaught exception), not
just that bundle: the deny-listed `d` already sits in quarantine with a
same-second backup present, so its force-quarantine raises; the clean
candidate `x` is never processed and no report, verdict, or state write
happens (the run yields an error, not a result). -/
theorem c7_abort_counterexample :
    weeklySync
      ⟨["d", "x"], fun _ => "h", fun _ => ⟨.clean, [], some "h"⟩, [], ["d"],
        .missing, ⟨[], [], ["d"], ["d_T0"]⟩, fun n => "T" ++ toString n⟩
      ⟨false, false, false, false, false⟩ = .error "backup exists: d_T0" := by
  rfl

/-- C7 amended: an existing destination is never silently overwritten —
`_copy_skill_dir` (and `_move_skill_dir`) first relocate it into a
timestamped backup, and a same-second collision at the backup location
fails loudly; but that failure is an uncaught exception that aborts the
whole `cmd_weekly_sync` invocation (no remaining bundle is processed, no
report/verdict/state is written), not a per-bundle skip-and-report. -/
theorem c7_backup_amended :
    (∀ (clock : Nat → String) (fs : Roots) (t : Nat) (dst : RootK)
        (sid : String) (fs' : Roots) (t' : Nat), sid ∈ fs.get dst →
        copySkillDir clock fs t dst sid = .ok (fs', t') →
        (sid ++ "_" ++ clock t) ∈ fs'.backups) ∧
    (∀ (clock : Nat → String) (fs : Roots) (t : Nat) (dst : RootK)
        (sid : String), sid ∈ fs.get dst →
        (sid ++ "_" ++ clock t) ∈ fs.backups →
        copySkillDir clock fs t dst sid =
          .error ("backup exists: " ++ (sid ++ "_" ++ clock t))) ∧
    (∀ (clock : Nat → String) (fs : Roots) (t : Nat) (srcR dstR : RootK)
        (sid : String), sid ∈ fs.get srcR → sid ∈ fs.get dstR →
        (sid ++ "_" ++ clock t) ∈ fs.backups →
        moveSkillDir clock fs t srcR dstR sid =
          .error ("backup exists: " ++ (sid ++ "_" ++ clock t))) ∧
    (∀ (env : SyncEnv) (args : SyncArgs) (st : LoopSt) (sid : String)
        (l : List String) (e : String),
        filteredStep env args st sid = .error e →
        foldE (filteredStep env args) st (sid :: l) = .error e) :=
  ⟨fun _ _ _ _ _ _ _ hm hc => copySkillDir_backup_created hm hc,
   fun _ _ _ _ _ hm hb => copySkillDir_collision hm hb,
   fun _ _ _ _ _ _ hs hm hb => moveSkillDir_collision hs hm hb,
   fun _ _ st sid l e h => foldE_error_propagates _ st sid l e h⟩

/-- Witness for the C7 amended theorem on concrete inputs: overwriting the
active copy of `a` creates backup `a_T`; with `a_T` already taken, both
copy and move fail loudly; and a failing first candidate makes the whole
fold error without touching the rest of the list. -/
theorem c7_backup_amended_witness :
    "a_T" ∈ (Roots.mk ["a"] [] [] ["a_T"]).backups ∧
    copySkillDir (fun _ => "T") ⟨["a"], [], [], ["a_T"]⟩ 0 .active "a" =
      .error "backup exists: a_T" ∧
    moveSkillDir (fun _ => "T") ⟨["a"], ["a"], [], ["a_T"]⟩ 0 .inactive .active "a" =
      .error "backup exists: a_T" ∧
    foldE (filteredStep envW7 argsW) (initSt envW7 argsW) ["a", "b"] =
      .error "backup exists: a_T0" := by
  obtain ⟨p1, p2, p3, p4⟩ := c7_backup_amended
  refine ⟨?_, ?_, ?_, ?_⟩
  · exact p1 (fun _ => "T") ⟨["a"], [], [], []⟩ 0 .active "a"
      ⟨["a"], [], [], ["a_T"]⟩ 1 (by decide) (by rfl)
  · exact p2 (fun _ => "T") ⟨["a"], [], [], ["a_T"]⟩ 0 .active "a"
      (by decide) (by decide)
  · exact p3 (fun _ => "T") ⟨["a"], ["a"], [], ["a_T"]⟩ 0 .inactive .active "a"
      (by decide) (by decide) (by decide)
  · exact p4 envW7 argsW (initSt envW7 argsW) "a" ["b"]
      "backup exists: a_T0" (by rfl)

end Vet
